import Mathlib

/-!
Verification development for the expression-construction engine
(dynamodb_expression): a shallow embedding of the builder types, the
expression-tree renderer and the alias tables, with theorems checking the
specification's claims against the embedded code.

Conventions of the embedding:
* Rust `anyhow::Result` together with the possibility of a panic is modelled
  by the three-valued `Res` type below (`ok` / `err` / `panicked`).  `err`
  carries either a typed `ExpressionError` or an ad-hoc string error
  (`anyhow::bail!` with a plain message).  `panicked` marks the places where
  the Rust code aborts (unchecked `usize` subtraction overflow,
  `Option::unwrap` on `None`, indexing a map at an absent key).
* Rust `String` is modelled by Lean `String`; character-by-character scans
  work on `String.data` (the list of characters).  All template strings and
  alias tokens produced by the library are ASCII, for which this model agrees
  with Rust's byte/char indexing.
* The `HashMap`s keyed by the small `ExpressionType` / `OperationMode` enums
  are modelled as association lists with distinct keys; the source never
  relies on hash-iteration order (it collects the keys and sorts them before
  iterating), and the embedded `build` functions do the same with
  `List.insertionSort` over the enum's declaration ordinal.
* The mutable `&mut AliasList` threaded through the recursive render is
  modelled by explicit state passing.
-/

/-! ### Errors and results (error.rs, anyhow) -/

inductive ExpressionError where
  | InvalidParameterError (functionName parameterType : String)
  | UnsetParameterError (functionName parameterType : String)
deriving DecidableEq, Repr

inductive Err where
  | typed (e : ExpressionError)
  | str (msg : String)
deriving DecidableEq, Repr

inductive Res (α : Type) where
  | ok (a : α)
  | err (e : Err)
  | panicked (msg : String)

def Res.isOk {α : Type} : Res α → Prop
  | .ok _ => True
  | _ => False

def Res.isErr {α : Type} : Res α → Prop
  | .err _ => True
  | _ => False

/-! ### AttributeValue (the wire protocol's typed value union; only the
variants the library constructs are modelled; `B`/`Ns`/`Bs` are never built
by the embedded code paths and are omitted) -/

inductive AttributeValue where
  | S (s : String)
  | N (n : String)
  | Bool (b : Bool)
  | Ss (l : List String)
  | L (l : List AttributeValue)
  | M (m : List (String × AttributeValue))
  | Null (b : Bool)

/-! ### ExpressionNode (expression.rs) -/

inductive ExpressionNode where
  | mk (names : List String) (values : List AttributeValue)
      (children : List ExpressionNode) (fmt_expression : String)

def ExpressionNode.names : ExpressionNode → List String
  | .mk ns _ _ _ => ns

def ExpressionNode.values : ExpressionNode → List AttributeValue
  | .mk _ vs _ _ => vs

def ExpressionNode.children : ExpressionNode → List ExpressionNode
  | .mk _ _ cs _ => cs

def ExpressionNode.fmt_expression : ExpressionNode → String
  | .mk _ _ _ f => f

def ExpressionNode.empty : ExpressionNode := .mk [] [] [] ""

def ExpressionNode.from_names (ns : List String) (fmt : String) : ExpressionNode :=
  .mk ns [] [] fmt

def ExpressionNode.from_values (vs : List AttributeValue) (fmt : String) : ExpressionNode :=
  .mk [] vs [] fmt

def ExpressionNode.from_children (cs : List ExpressionNode) : ExpressionNode :=
  .mk [] [] cs ""

def ExpressionNode.from_children_expression (cs : List ExpressionNode) (fmt : String) :
    ExpressionNode :=
  .mk [] [] cs fmt

def ExpressionNode.withFmt (n : ExpressionNode) (fmt : String) : ExpressionNode :=
  .mk n.names n.values n.children fmt

/-! ### AliasList (expression.rs) -/

structure AliasList where
  names : List String
  values : List AttributeValue

def AliasList.empty : AliasList := ⟨[], []⟩

/-- The method `alias_value`: push the value, return the token for the slot just used
(the source formats `values.len() - 1` after the push, i.e. the old length). -/
def AliasList.alias_value (al : AliasList) (dav : AttributeValue) : String × AliasList :=
  (":" ++ toString al.values.length, ⟨al.names, al.values ++ [dav]⟩)

/-- Index of the first occurrence of `nm`, scanning left to right
(the source's enumerate-and-compare loop in `alias_path`). -/
def findFirst (nm : String) : List String → Option Nat
  | [] => none
  | x :: xs => if nm = x then some 0 else (findFirst nm xs).map (· + 1)

/-- The method `alias_path`: reuse the first matching index if the exact string was seen
before, otherwise push and use the next index. -/
def AliasList.alias_path (al : AliasList) (nm : String) : String × AliasList :=
  match findFirst nm al.names with
  | some idx => ("#" ++ toString idx, al)
  | none => ("#" ++ toString al.names.length, ⟨al.names ++ [nm], al.values⟩)

/-! ### The renderer (ExpressionNode::build_expression_string).

The source scans the template with an index `idx` that it compares against
the string's BYTE length (`str::len()`) and uses for BYTE slicing
(`&s[..idx]`, `&s[idx + 2..]`), while reading the character at `idx` with
`chars().nth(idx).unwrap()`, which counts CHARS.  The two agree only while
every character is single-byte; on a template with a multi-byte character the
`unwrap` (or the slice boundary check) panics.  `renderLoop` below is the
faithful embedding of that loop over the list of characters of the current
string, with `utf8Len` giving the byte length, `List.get?` modelling
`chars().nth` (`none` is the `unwrap` panic) and `splitAtByte` modelling the
byte slices (`none` is the boundary/bounds panic).  Each loop iteration
strictly decreases `utf8Len s - idx`, so the byte length of the template plus
one is enough fuel.  The recursion into children is paid for by a separate
depth fuel (`renderDB`); `build_expression_string` passes the tree's actual
depth, so that fuel never runs out on the calls the library makes.

`processFmt` / `renderD` further below are a single-byte reference scanner
over the same substitution logic; `renderDB_eq_renderD` proves the faithful
renderer equal to it on every tree whose templates contain only single-byte
characters. -/

/-- Byte length of a string given as its list of characters
(Rust `str::len()`). -/
def utf8Len : List Char → Nat
  | [] => 0
  | c :: cs => c.utf8Size + utf8Len cs

/-- Every character of the list is a single UTF-8 byte. -/
def asciiStr (l : List Char) : Prop := ∀ c ∈ l, c.utf8Size = 1

/-- Split a character list at a BYTE position, as Rust byte slicing does:
`none` when the byte index is out of bounds or inside a character (where the
Rust slice panics). -/
def splitAtByte : Nat → List Char → Option (List Char × List Char)
  | 0, s => some ([], s)
  | _ + 1, [] => none
  | i + 1, c :: cs =>
    if i + 1 < c.utf8Size then none
    else (splitAtByte (i + 1 - c.utf8Size) cs).map (fun p => (c :: p.1, p.2))

def substitutePath (node : ExpressionNode) (index : Nat) (al : AliasList) :
    Res (String × AliasList) :=
  match node.names.get? index with
  | none => .err (.str "substitutePath error: exprNode []names out of range")
  | some nm => .ok (al.alias_path nm)

def substituteValue (node : ExpressionNode) (index : Nat) (al : AliasList) :
    Res (String × AliasList) :=
  match node.values.get? index with
  | none => .err (.str "substituteValue error: exprNode []values out of range")
  | some v => .ok (al.alias_value v)

/-- The faithful while loop of `build_expression_string`: `s` is the current
(spliced) string, `idx` the scan index the source compares against the byte
length, uses for byte slicing, and passes to `chars().nth`; `ni`, `vi`, `ci`
are the three escape counters; `fuel` only bounds the iteration count
(byte length of the original template + 1 always suffices, see above). -/
def renderLoop (sub : ExpressionNode → AliasList → Res (String × AliasList))
    (node : ExpressionNode) :
    Nat → List Char → Nat → Nat → Nat → Nat → AliasList → Res (String × AliasList)
  | 0, _, _, _, _, _, _ =>
    .panicked "render: out of fuel (never reached from build_expression_string)"
  | fuel + 1, s, idx, ni, vi, ci, al =>
    if idx < utf8Len s then
      match s.get? idx with
      | none => .panicked "called Option::unwrap on a None value"
      | some c =>
        if c = '$' then
          if idx = utf8Len s - 1 then
            .err (.str "buildexprNode error: invalid escape character")
          else
            match s.get? (idx + 1) with
            | none => .panicked "called Option::unwrap on a None value"
            | some rune =>
              let step : Res (String × AliasList × Nat × Nat × Nat) :=
                if rune = 'n' then
                  match substitutePath node ni al with
                  | .ok (tok, al2) => .ok (tok, al2, ni + 1, vi, ci)
                  | .err e => .err e
                  | .panicked m => .panicked m
                else if rune = 'v' then
                  match substituteValue node vi al with
                  | .ok (tok, al2) => .ok (tok, al2, ni, vi + 1, ci)
                  | .err e => .err e
                  | .panicked m => .panicked m
                else if rune = 'c' then
                  match node.children.get? ci with
                  | none =>
                    .err (.str "substituteChild error: exprNode []children out of range")
                  | some child =>
                    match sub child al with
                    | .ok (tok, al2) => .ok (tok, al2, ni, vi, ci + 1)
                    | .err e => .err e
                    | .panicked m => .panicked m
                else .err (.str ("buildexprNode error: invalid escape rune " ++ rune.toString))
              match step with
              | .err e => .err e
              | .panicked m => .panicked m
              | .ok (tok, al2, ni2, vi2, ci2) =>
                match splitAtByte idx s with
                | none => .panicked "byte index is not a char boundary"
                | some pre =>
                  match splitAtByte (idx + 2) s with
                  | none => .panicked "byte index is not a char boundary"
                  | some post =>
                    renderLoop sub node fuel (pre.1 ++ tok.data ++ post.2)
                      (idx + utf8Len tok.data) ni2 vi2 ci2 al2
        else renderLoop sub node fuel s (idx + 1) ni vi ci al
    else .ok (String.mk s, al)

/-- The faithful renderer, with the depth fuel for child recursion. -/
def renderDB : Nat → ExpressionNode → AliasList → Res (String × AliasList)
  | 0, _, _ =>
    .panicked "render: out of fuel (never reached from build_expression_string)"
  | d + 1, node, al =>
    renderLoop (renderDB d) node (utf8Len node.fmt_expression.data + 1)
      node.fmt_expression.data 0 0 0 0 al

/-- Reference scanner: one pass over the remaining template characters,
accumulating output.  It coincides with the faithful `renderLoop` exactly
when every character in play is single-byte (proved in
`renderDB_eq_renderD`).  `subChild` is the renderer applied to child nodes;
`ni`, `vi`, `ci` are this node's three independent escape counters. -/
def processFmt (subChild : ExpressionNode → AliasList → Res (String × AliasList))
    (node : ExpressionNode) :
    List Char → Nat → Nat → Nat → String → AliasList → Res (String × AliasList)
  | [], _, _, _, acc, al => .ok (acc, al)
  | ch :: rest1, ni, vi, ci, acc, al =>
    if ch = '$' then
      match rest1 with
      | [] => .err (.str "buildexprNode error: invalid escape character")
      | r :: rest2 =>
        if r = 'n' then
          match substitutePath node ni al with
          | .ok (tok, al2) => processFmt subChild node rest2 (ni + 1) vi ci (acc ++ tok) al2
          | .err e => .err e
          | .panicked m => .panicked m
        else if r = 'v' then
          match substituteValue node vi al with
          | .ok (tok, al2) => processFmt subChild node rest2 ni (vi + 1) ci (acc ++ tok) al2
          | .err e => .err e
          | .panicked m => .panicked m
        else if r = 'c' then
          match node.children.get? ci with
          | none => .err (.str "substituteChild error: exprNode []children out of range")
          | some child =>
            match subChild child al with
            | .ok (tok, al2) => processFmt subChild node rest2 ni vi (ci + 1) (acc ++ tok) al2
            | .err e => .err e
            | .panicked m => .panicked m
        else .err (.str ("buildexprNode error: invalid escape rune " ++ r.toString))
    else processFmt subChild node rest1 ni vi ci (acc.push ch) al

def renderD : Nat → ExpressionNode → AliasList → Res (String × AliasList)
  | 0, _, _ =>
    .panicked "render: out of fuel (never reached from build_expression_string)"
  | d + 1, node, al => processFmt (renderD d) node node.fmt_expression.data 0 0 0 "" al

mutual
def nodeDepth : ExpressionNode → Nat
  | .mk _ _ cs _ => nodeDepthL cs + 1
def nodeDepthL : List ExpressionNode → Nat
  | [] => 0
  | c :: cs => max (nodeDepth c) (nodeDepthL cs)
end

def ExpressionNode.build_expression_string (node : ExpressionNode) (al : AliasList) :
    Res (String × AliasList) :=
  renderDB (nodeDepth node) node al

mutual
/-- Whether every template in the tree (this node's and all descendants')
consists of single-byte characters — the domain on which the byte-indexed
scan and the reference scanner agree. -/
def asciiFmt : ExpressionNode → Bool
  | .mk _ _ cs f => f.data.all (fun c => c.utf8Size == 1) && asciiFmtL cs
def asciiFmtL : List ExpressionNode → Bool
  | [] => true
  | c :: cs => asciiFmt c && asciiFmtL cs
end

/-! ### Value builders (operand.rs `ValueBuilder<T>` + lib.rs `impl_value_builder!`).

The family of `ValueBuilder<T>` instantiations is a closed set, embedded as
one sum type; `attribute_value` is the dispatch of the per-type
`ValueBuilderImpl::attribute_value` impls.  The `f64` instantiation is the
only one omitted (floating point, and no claim touches it). -/

inductive ValueBuilderE where
  | vBool (b : Bool)
  | vI64 (i : Int)
  | vStr (s : String)
  | vStrVec (l : List String)
  | vString (s : String)
  | vStringVec (l : List String)
  | vAttr (av : AttributeValue)
  | vList (l : List ValueBuilderE)
  | vMap (m : List (String × ValueBuilderE))

mutual
def ValueBuilderE.attribute_value : ValueBuilderE → AttributeValue
  | .vBool b => .Bool b
  | .vI64 i => .N (toString i)
  | .vStr s => .S s
  | .vStrVec l => if l.isEmpty then .Null true else .Ss l
  | .vString s => .S s
  | .vStringVec l => if l.isEmpty then .Null true else .Ss l
  | .vAttr av => av
  | .vList l => if l.isEmpty then .Null true else .L (attribute_value_list l)
  | .vMap m => if m.isEmpty then .Null true else .M (attribute_value_map m)
def attribute_value_list : List ValueBuilderE → List AttributeValue
  | [] => []
  | x :: xs => x.attribute_value :: attribute_value_list xs
def attribute_value_map : List (String × ValueBuilderE) → List (String × AttributeValue)
  | [] => []
  | (k, v) :: xs => (k, v.attribute_value) :: attribute_value_map xs
end

/-! ### Operand builders (operand.rs) -/

inductive SetValueMode where
  | Unset
  | Plus
  | Minus
  | ListAppend
  | IfNotExists
deriving DecidableEq, Repr

/-- The closed set of `OperandBuilder` implementors: `NameBuilder`,
`KeyBuilder`, `ValueBuilder<T>`, `SizeBuilder` (which boxes a `NameBuilder`)
and `SetValueBuilder` (whose operands are `Option`s, `None` in the
default/defensive state). -/
inductive OperandBuilderE where
  | nameBuilder (name : String)
  | keyBuilder (key : String)
  | valueBuilder (v : ValueBuilderE)
  | sizeBuilder (name_builder : String)
  | setValueBuilder (left_operand right_operand : Option OperandBuilderE) (mode : SetValueMode)

/-- Split on every dot, like Rust `str::split('.')` (an empty string yields
one empty segment, a trailing dot yields a trailing empty segment). -/
def splitDot : List Char → List (List Char)
  | [] => [[]]
  | c :: cs =>
    if c = '.' then [] :: splitDot cs
    else
      match splitDot cs with
      | [] => [[c]]
      | w :: ws => (c :: w) :: ws

/-- Index of the first occurrence of the opening bracket, mirroring the
enumerate-and-break loop in `NameBuilder::build_operand`. -/
def findBracket : List Char → Option Nat
  | [] => none
  | c :: cs => if c = '[' then some 0 else (findBracket cs).map (· + 1)

def joinDot : List String → String
  | [] => ""
  | [x] => x
  | x :: xs => x ++ "." ++ joinDot xs

def unsetName : Err := .typed (.UnsetParameterError "BuildOperand" "NameBuilder")

/-- The per-word loop of `NameBuilder::build_operand`: reject an empty word;
then the source tests the last character with
`word.chars().nth(word.len() - 1).unwrap()`, where `word.len()` is the BYTE
length while `nth` counts CHARS — so any word containing a multi-byte
character makes the `nth` return `None` and the `unwrap` panic (byte length
exceeds the char count).  When the `nth` succeeds the word is all
single-byte (byte length = char count) and the index is the last character;
the bracket strip then slices at the char index of the first opening
bracket, which on this all-single-byte word is exactly the byte slice the
source takes.  An empty remaining word is rejected; otherwise the name entry
plus its template fragment are accumulated. -/
def nameWordsLoop : List (List Char) → Res (List String × List String)
  | [] => .ok ([], [])
  | word :: rest =>
    if word.isEmpty then .err unsetName
    else
      match word.get? (utf8Len word - 1) with
      | none => .panicked "called Option::unwrap on a None value"
      | some lastc =>
        let stripped : List Char × List Char :=
          if lastc = ']' then
            match findBracket word with
            | some j => (word.take j, word.drop j)
            | none => (word, [])
          else (word, [])
        if stripped.1.isEmpty then .err unsetName
        else
          match nameWordsLoop rest with
          | .ok (ns, fs) =>
            .ok (String.mk stripped.1 :: ns, ("$n" ++ String.mk stripped.2) :: fs)
          | .err e => .err e
          | .panicked m => .panicked m

def name_build_operand (nm : String) : Res ExpressionNode :=
  if nm.isEmpty then .err unsetName
  else
    match nameWordsLoop (splitDot nm.data) with
    | .ok (ns, fs) => .ok (.mk ns [] [] (joinDot fs))
    | .err e => .err e
    | .panicked m => .panicked m

def SetValueMode.dbg : SetValueMode → String
  | .Unset => "Unset"
  | .Plus => "Plus"
  | .Minus => "Minus"
  | .ListAppend => "ListAppend"
  | .IfNotExists => "IfNotExists"

def OperandBuilderE.build_operand : OperandBuilderE → Res ExpressionNode
  | .nameBuilder n => name_build_operand n
  | .keyBuilder k =>
    if k.isEmpty then .err (.typed (.UnsetParameterError "BuildOperand" "KeyBuilder"))
    else .ok (.from_names [k] "$n")
  | .valueBuilder v => .ok (.from_values [v.attribute_value] "$v")
  | .sizeBuilder n =>
    match name_build_operand n with
    | .ok node => .ok (node.withFmt ("size (" ++ node.fmt_expression ++ ")"))
    | .err e => .err e
    | .panicked m => .panicked m
  | .setValueBuilder l r mode =>
    if mode = .Unset then .err (.typed (.UnsetParameterError "BuildOperand" "SetValueBuilder"))
    else
      match l with
      | none => .panicked "called Option::unwrap on a None value"
      | some lb =>
        match lb.build_operand with
        | .err e => .err e
        | .panicked m => .panicked m
        | .ok left_node =>
          match r with
          | none => .panicked "called Option::unwrap on a None value"
          | some rb =>
            match rb.build_operand with
            | .err e => .err e
            | .panicked m => .panicked m
            | .ok right_node =>
              match mode with
              | .Plus => .ok (.from_children_expression [left_node, right_node] "$c + $c")
              | .Minus => .ok (.from_children_expression [left_node, right_node] "$c - $c")
              | .ListAppend =>
                .ok (.from_children_expression [left_node, right_node] "list_append($c, $c)")
              | .IfNotExists =>
                .ok (.from_children_expression [left_node, right_node] "if_not_exists($c, $c)")
              | .Unset => .err (.str ("build operand error: unsupported mode: " ++ mode.dbg))

/-- The free functions `name` / `key` / `value` / `size` that construct
operand builders. -/
def nameFn (n : String) : OperandBuilderE := .nameBuilder n

def keyFn (k : String) : OperandBuilderE := .keyBuilder k

def valueFn (v : ValueBuilderE) : OperandBuilderE := .valueBuilder v

def sizeFn (n : String) : OperandBuilderE := .sizeBuilder n

def plusFn (l r : OperandBuilderE) : OperandBuilderE := .setValueBuilder (some l) (some r) .Plus

def minusFn (l r : OperandBuilderE) : OperandBuilderE := .setValueBuilder (some l) (some r) .Minus

def list_appendFn (l r : OperandBuilderE) : OperandBuilderE :=
  .setValueBuilder (some l) (some r) .ListAppend

def if_not_existsFn (l r : OperandBuilderE) : OperandBuilderE :=
  .setValueBuilder (some l) (some r) .IfNotExists

/-! ### Condition builders (condition.rs) -/

inductive ConditionMode where
  | Unset
  | Equal
  | NotEqual
  | LessThan
  | LessThanEqual
  | GreaterThan
  | GreaterThanEqual
  | And
  | Or
  | Not
  | Between
  | In
  | AttrExists
  | AttrNotExists
  | AttrType
  | BeginsWith
  | Contains
deriving DecidableEq, Repr

def ConditionMode.dbg : ConditionMode → String
  | .Unset => "Unset"
  | .Equal => "Equal"
  | .NotEqual => "NotEqual"
  | .LessThan => "LessThan"
  | .LessThanEqual => "LessThanEqual"
  | .GreaterThan => "GreaterThan"
  | .GreaterThanEqual => "GreaterThanEqual"
  | .And => "And"
  | .Or => "Or"
  | .Not => "Not"
  | .Between => "Between"
  | .In => "In"
  | .AttrExists => "AttrExists"
  | .AttrNotExists => "AttrNotExists"
  | .AttrType => "AttrType"
  | .BeginsWith => "BeginsWith"
  | .Contains => "Contains"

inductive DynamoDbAttributeType where
  | String
  | StringSet
  | Number
  | NumberSet
  | Binary
  | BinarySet
  | Boolean
  | Null
  | List
  | Map
deriving DecidableEq, Repr

def attrTypeStr : DynamoDbAttributeType → String
  | .String => "S"
  | .StringSet => "SS"
  | .Number => "N"
  | .NumberSet => "NS"
  | .Binary => "B"
  | .BinarySet => "BS"
  | .Boolean => "BOOL"
  | .Null => "NULL"
  | .List => "L"
  | .Map => "M"

inductive ConditionBuilderE where
  | mk (operand_list : List OperandBuilderE) (condition_list : List ConditionBuilderE)
      (mode : ConditionMode)

def ConditionBuilderE.operand_list : ConditionBuilderE → List OperandBuilderE
  | .mk ops _ _ => ops

def ConditionBuilderE.condition_list : ConditionBuilderE → List ConditionBuilderE
  | .mk _ cs _ => cs

def ConditionBuilderE.mode : ConditionBuilderE → ConditionMode
  | .mk _ _ m => m

def ConditionBuilderE.default : ConditionBuilderE := .mk [] [] .Unset

/-- Rust `str::repeat`: `n` concatenated copies. -/
def repeatStr (s : String) : Nat → String
  | 0 => ""
  | n + 1 => s ++ repeatStr s n

/-- The operand half of `build_child_nodes` (shared by condition and
key-condition builders): build each operand in order, stopping at the first
failure. -/
def operandChildNodes : List OperandBuilderE → Res (List ExpressionNode)
  | [] => .ok []
  | op :: ops =>
    match op.build_operand with
    | .ok n =>
      match operandChildNodes ops with
      | .ok ns => .ok (n :: ns)
      | .err e => .err e
      | .panicked m => .panicked m
    | .err e => .err e
    | .panicked m => .panicked m

def compare_build_condition (mode : ConditionMode) (node : ExpressionNode) :
    Res ExpressionNode :=
  match mode with
  | .Equal => .ok (node.withFmt "$c = $c")
  | .NotEqual => .ok (node.withFmt "$c <> $c")
  | .LessThan => .ok (node.withFmt "$c < $c")
  | .LessThanEqual => .ok (node.withFmt "$c <= $c")
  | .GreaterThan => .ok (node.withFmt "$c > $c")
  | .GreaterThanEqual => .ok (node.withFmt "$c >= $c")
  | m => .err (.str ("build compare condition error: unsupported mode: " ++ m.dbg))

/-- The function `compound_build_condition`: the source computes
`"($c)" + (" AND/OR ($c)").repeat(condition_list.len() - 1)`; the `usize`
subtraction is unchecked, so a hand-built And/Or with an empty child list
aborts (overflow panic in debug; the wrapped huge repeat count also panics in
release). -/
def compound_build_condition (cb : ConditionBuilderE) (node : ExpressionNode) :
    Res ExpressionNode :=
  match cb.mode with
  | .And =>
    if cb.condition_list.length = 0 then .panicked "attempt to subtract with overflow"
    else .ok (node.withFmt ("($c)" ++ repeatStr (" AND " ++ "($c)") (cb.condition_list.length - 1)))
  | .Or =>
    if cb.condition_list.length = 0 then .panicked "attempt to subtract with overflow"
    else .ok (node.withFmt ("($c)" ++ repeatStr (" OR " ++ "($c)") (cb.condition_list.length - 1)))
  | m => .err (.str ("build compound condition error: unsupported mode: " ++ m.dbg))

def not_build_condition (node : ExpressionNode) : ExpressionNode :=
  node.withFmt "NOT ($c)"

def between_build_condition (node : ExpressionNode) : ExpressionNode :=
  node.withFmt "$c BETWEEN $c AND $c"

/-- The function `in_build_condition`: the source computes
`format!("$c IN ($c{})", ", $c".repeat(operand_list.len() - 2))`; the `usize`
subtraction `len - 2` is unchecked, so with fewer than two operands the call
aborts by panic instead of returning through the error channel. -/
def in_build_condition (cb : ConditionBuilderE) (node : ExpressionNode) : Res ExpressionNode :=
  if cb.operand_list.length < 2 then .panicked "attempt to subtract with overflow"
  else .ok (node.withFmt ("$c IN ($c" ++ repeatStr ", $c" (cb.operand_list.length - 2) ++ ")"))

def attr_exists_build_condition (node : ExpressionNode) : ExpressionNode :=
  node.withFmt "attribute_exists ($c)"

def attr_not_exists_build_condition (node : ExpressionNode) : ExpressionNode :=
  node.withFmt "attribute_not_exists ($c)"

def attr_type_build_condition (node : ExpressionNode) : ExpressionNode :=
  node.withFmt "attribute_type ($c, $c)"

def begins_with_build_condition (node : ExpressionNode) : ExpressionNode :=
  node.withFmt "begins_with ($c, $c)"

def contains_build_condition (node : ExpressionNode) : ExpressionNode :=
  node.withFmt "contains ($c, $c)"

mutual
/-- The method `ConditionBuilder::build_tree`: build the child nodes (conditions first,
then operands), then apply the mode's template. -/
def ConditionBuilderE.build_tree : ConditionBuilderE → Res ExpressionNode
  | .mk ops conds mode =>
    match condChildNodes conds with
    | .err e => .err e
    | .panicked m => .panicked m
    | .ok cnodes =>
      match operandChildNodes ops with
      | .err e => .err e
      | .panicked m => .panicked m
      | .ok onodes =>
        let ret := ExpressionNode.from_children (cnodes ++ onodes)
        match mode with
        | .Equal => compare_build_condition .Equal ret
        | .NotEqual => compare_build_condition .NotEqual ret
        | .LessThan => compare_build_condition .LessThan ret
        | .LessThanEqual => compare_build_condition .LessThanEqual ret
        | .GreaterThan => compare_build_condition .GreaterThan ret
        | .GreaterThanEqual => compare_build_condition .GreaterThanEqual ret
        | .And => compound_build_condition (.mk ops conds .And) ret
        | .Or => compound_build_condition (.mk ops conds .Or) ret
        | .Not => .ok (not_build_condition ret)
        | .Between => .ok (between_build_condition ret)
        | .In => in_build_condition (.mk ops conds .In) ret
        | .AttrExists => .ok (attr_exists_build_condition ret)
        | .AttrNotExists => .ok (attr_not_exists_build_condition ret)
        | .AttrType => .ok (attr_type_build_condition ret)
        | .BeginsWith => .ok (begins_with_build_condition ret)
        | .Contains => .ok (contains_build_condition ret)
        | .Unset => .err (.typed (.UnsetParameterError "buildTree" "ConditionBuilder"))
def condChildNodes : List ConditionBuilderE → Res (List ExpressionNode)
  | [] => .ok []
  | c :: cs =>
    match c.build_tree with
    | .ok n =>
      match condChildNodes cs with
      | .ok ns => .ok (n :: ns)
      | .err e => .err e
      | .panicked m => .panicked m
    | .err e => .err e
    | .panicked m => .panicked m
end

/-- The public condition constructors. -/
def equalC (l r : OperandBuilderE) : ConditionBuilderE := .mk [l, r] [] .Equal

def not_equalC (l r : OperandBuilderE) : ConditionBuilderE := .mk [l, r] [] .NotEqual

def less_thanC (l r : OperandBuilderE) : ConditionBuilderE := .mk [l, r] [] .LessThan

def less_than_equalC (l r : OperandBuilderE) : ConditionBuilderE := .mk [l, r] [] .LessThanEqual

def greater_thanC (l r : OperandBuilderE) : ConditionBuilderE := .mk [l, r] [] .GreaterThan

def greater_than_equalC (l r : OperandBuilderE) : ConditionBuilderE :=
  .mk [l, r] [] .GreaterThanEqual

def andC (l r : ConditionBuilderE) : ConditionBuilderE := .mk [] [l, r] .And

def orC (l r : ConditionBuilderE) : ConditionBuilderE := .mk [] [l, r] .Or

def notC (c : ConditionBuilderE) : ConditionBuilderE := .mk [] [c] .Not

def betweenC (op lower upper : OperandBuilderE) : ConditionBuilderE :=
  .mk [op, lower, upper] [] .Between

/-- The constructor `r#in(left, right)`: the subject followed by every candidate, In mode. -/
def inC (left : OperandBuilderE) (right : List OperandBuilderE) : ConditionBuilderE :=
  .mk (left :: right) [] .In

def attribute_existsC (n : String) : ConditionBuilderE := .mk [nameFn n] [] .AttrExists

def attribute_not_existsC (n : String) : ConditionBuilderE := .mk [nameFn n] [] .AttrNotExists

def attribute_typeC (n : String) (t : DynamoDbAttributeType) : ConditionBuilderE :=
  .mk [nameFn n, valueFn (.vString (attrTypeStr t))] [] .AttrType

def begins_withC (n : String) (pre : String) : ConditionBuilderE :=
  .mk [nameFn n, valueFn (.vString pre)] [] .BeginsWith

def containsC (n : String) (substr : String) : ConditionBuilderE :=
  .mk [nameFn n, valueFn (.vString substr)] [] .Contains

/-! ### Key-condition builders (key_condition.rs) -/

inductive KeyConditionMode where
  | Unset
  | Invalid
  | Equal
  | LessThan
  | LessThanEqual
  | GreaterThan
  | GreaterThanEqual
  | And
  | Between
  | BeginsWith
deriving DecidableEq, Repr

def KeyConditionMode.dbg : KeyConditionMode → String
  | .Unset => "Unset"
  | .Invalid => "Invalid"
  | .Equal => "Equal"
  | .LessThan => "LessThan"
  | .LessThanEqual => "LessThanEqual"
  | .GreaterThan => "GreaterThan"
  | .GreaterThanEqual => "GreaterThanEqual"
  | .And => "And"
  | .Between => "Between"
  | .BeginsWith => "BeginsWith"

inductive KeyConditionBuilderE where
  | mk (operand_list : List OperandBuilderE) (key_condition_list : List KeyConditionBuilderE)
      (mode : KeyConditionMode)

def KeyConditionBuilderE.operand_list : KeyConditionBuilderE → List OperandBuilderE
  | .mk ops _ _ => ops

def KeyConditionBuilderE.key_condition_list : KeyConditionBuilderE → List KeyConditionBuilderE
  | .mk _ ks _ => ks

def KeyConditionBuilderE.mode : KeyConditionBuilderE → KeyConditionMode
  | .mk _ _ m => m

def KeyConditionBuilderE.default : KeyConditionBuilderE := .mk [] [] .Unset

def compare_build_key_condition (mode : KeyConditionMode) (node : ExpressionNode) :
    Res ExpressionNode :=
  match mode with
  | .Equal => .ok (node.withFmt "$c = $c")
  | .LessThan => .ok (node.withFmt "$c < $c")
  | .LessThanEqual => .ok (node.withFmt "$c <= $c")
  | .GreaterThan => .ok (node.withFmt "$c > $c")
  | .GreaterThanEqual => .ok (node.withFmt "$c >= $c")
  | m => .err (.str ("build compare key condition error: unsupported mode: " ++ m.dbg))

/-- The function `and_build_key_condition`: re-validates non-emptiness (defense in depth
against hand-built builders), then the two-clause AND template. -/
def and_build_key_condition (kcb : KeyConditionBuilderE) (node : ExpressionNode) :
    Res ExpressionNode :=
  if kcb.key_condition_list.isEmpty ∧ kcb.operand_list.isEmpty then
    .err (.typed (.InvalidParameterError "andBuildKeyCondition" "KeyConditionBuilder"))
  else .ok (node.withFmt "($c) AND ($c)")

def between_build_key_condition (node : ExpressionNode) : ExpressionNode :=
  node.withFmt "$c BETWEEN $c AND $c"

def begins_with_build_key_condition (node : ExpressionNode) : ExpressionNode :=
  node.withFmt "begins_with ($c, $c)"

mutual
def KeyConditionBuilderE.build_tree : KeyConditionBuilderE → Res ExpressionNode
  | .mk ops kconds mode =>
    match keyCondChildNodes kconds with
    | .err e => .err e
    | .panicked m => .panicked m
    | .ok cnodes =>
      match operandChildNodes ops with
      | .err e => .err e
      | .panicked m => .panicked m
      | .ok onodes =>
        let ret := ExpressionNode.from_children (cnodes ++ onodes)
        match mode with
        | .Equal => compare_build_key_condition .Equal ret
        | .LessThan => compare_build_key_condition .LessThan ret
        | .LessThanEqual => compare_build_key_condition .LessThanEqual ret
        | .GreaterThan => compare_build_key_condition .GreaterThan ret
        | .GreaterThanEqual => compare_build_key_condition .GreaterThanEqual ret
        | .And => and_build_key_condition (.mk ops kconds .And) ret
        | .Between => .ok (between_build_key_condition ret)
        | .BeginsWith => .ok (begins_with_build_key_condition ret)
        | .Unset => .err (.typed (.UnsetParameterError "buildTree" "KeyConditionBuilder"))
        | .Invalid => .err (.str "buildKeyCondition error: invalid key condition constructed")
def keyCondChildNodes : List KeyConditionBuilderE → Res (List ExpressionNode)
  | [] => .ok []
  | c :: cs =>
    match c.build_tree with
    | .ok n =>
      match keyCondChildNodes cs with
      | .ok ns => .ok (n :: ns)
      | .err e => .err e
      | .panicked m => .panicked m
    | .err e => .err e
    | .panicked m => .panicked m
end

/-- The public key-condition constructors (`key_equal` etc. take a
`KeyBuilder` and a `ValueBuilderImpl`). -/
def key_equal (k : String) (v : ValueBuilderE) : KeyConditionBuilderE :=
  .mk [keyFn k, valueFn v] [] .Equal

def key_less_than (k : String) (v : ValueBuilderE) : KeyConditionBuilderE :=
  .mk [keyFn k, valueFn v] [] .LessThan

def key_less_than_equal (k : String) (v : ValueBuilderE) : KeyConditionBuilderE :=
  .mk [keyFn k, valueFn v] [] .LessThanEqual

def key_greater_than (k : String) (v : ValueBuilderE) : KeyConditionBuilderE :=
  .mk [keyFn k, valueFn v] [] .GreaterThan

def key_greater_than_equal (k : String) (v : ValueBuilderE) : KeyConditionBuilderE :=
  .mk [keyFn k, valueFn v] [] .GreaterThanEqual

/-- The combinator `key_and(left, right)`: an illegal combination (left not Equal, or right
already an And) produces the poisoned `Invalid` builder with empty lists; a
legal one nests both sides as children of an And node. -/
def key_and (left right : KeyConditionBuilderE) : KeyConditionBuilderE :=
  if left.mode ≠ KeyConditionMode.Equal then .mk [] [] .Invalid
  else if right.mode = KeyConditionMode.And then .mk [] [] .Invalid
  else .mk [] [left, right] .And

def key_between (k : String) (upper lower : ValueBuilderE) : KeyConditionBuilderE :=
  .mk [keyFn k, valueFn upper, valueFn lower] [] .Between

def key_begins_with (k : String) (pre : String) : KeyConditionBuilderE :=
  .mk [keyFn k, valueFn (.vString pre)] [] .BeginsWith

/-! ### Projection builders (projection.rs).  A `Box<NameBuilder>` is just
its name string. -/

structure ProjectionBuilderE where
  names : List String

def ProjectionBuilderE.default : ProjectionBuilderE := ⟨[]⟩

def projChildNodes : List String → Res (List ExpressionNode)
  | [] => .ok []
  | n :: ns =>
    match name_build_operand n with
    | .ok node =>
      match projChildNodes ns with
      | .ok nodes => .ok (node :: nodes)
      | .err e => .err e
      | .panicked m => .panicked m
    | .err e => .err e
    | .panicked m => .panicked m

def ProjectionBuilderE.build_tree (pb : ProjectionBuilderE) : Res ExpressionNode :=
  if pb.names.isEmpty then .err (.typed (.UnsetParameterError "buildTree" "ProjectionBuilder"))
  else
    match projChildNodes pb.names with
    | .ok cs => .ok (.from_children_expression cs ("$c" ++ repeatStr ", $c" (pb.names.length - 1)))
    | .err e => .err e
    | .panicked m => .panicked m

def names_list (first : String) (rest : List String) : ProjectionBuilderE :=
  ⟨first :: rest⟩

def add_names (pb : ProjectionBuilderE) (more : List String) : ProjectionBuilderE :=
  ⟨pb.names ++ more⟩

/-! ### Update builders (update.rs) -/

inductive OperationMode where
  | Set
  | Remove
  | Add
  | Delete
deriving DecidableEq, Repr

def OperationMode.as_str : OperationMode → String
  | .Set => "SET"
  | .Remove => "REMOVE"
  | .Add => "ADD"
  | .Delete => "DELETE"

/-- The enum's declaration ordinal, which the derived `Ord` (and so
`modes.sort()`) uses. -/
def OperationMode.rank : OperationMode → Nat
  | .Set => 0
  | .Remove => 1
  | .Add => 2
  | .Delete => 3

def OperationMode.dbg : OperationMode → String
  | .Set => "Set"
  | .Remove => "Remove"
  | .Add => "Add"
  | .Delete => "Delete"

structure OperationBuilderE where
  name : String
  value : Option OperandBuilderE
  mode : OperationMode

/-- The method `OperationBuilder::build_operation`: always a `"$c"` name child; Remove
returns right there (ignoring any operand); otherwise the optional value
child is appended and the mode's template suffix added. -/
def OperationBuilderE.build_operation (ob : OperationBuilderE) : Res ExpressionNode :=
  match name_build_operand ob.name with
  | .err e => .err e
  | .panicked m => .panicked m
  | .ok path_child =>
    let node := ExpressionNode.from_children_expression [path_child] "$c"
    if ob.mode = .Remove then .ok node
    else
      let step2 : Res ExpressionNode :=
        match ob.value with
        | some vb =>
          match vb.build_operand with
          | .ok value_child =>
            .ok (ExpressionNode.mk node.names node.values (node.children ++ [value_child])
              node.fmt_expression)
          | .err e => .err e
          | .panicked m => .panicked m
        | none => .ok node
      match step2 with
      | .err e => .err e
      | .panicked m => .panicked m
      | .ok node2 =>
        match ob.mode with
        | .Set => .ok (node2.withFmt (node2.fmt_expression ++ " = $c"))
        | .Add => .ok (node2.withFmt (node2.fmt_expression ++ " $c"))
        | .Delete => .ok (node2.withFmt (node2.fmt_expression ++ " $c"))
        | .Remove =>
          .err (.str ("build update error: build operation error: unsupported mode: "
            ++ OperationMode.dbg .Remove))

def opListNodes : List OperationBuilderE → Res (List ExpressionNode)
  | [] => .ok []
  | ob :: obs =>
    match ob.build_operation with
    | .ok n =>
      match opListNodes obs with
      | .ok ns => .ok (n :: ns)
      | .err e => .err e
      | .panicked m => .panicked m
    | .err e => .err e
    | .panicked m => .panicked m

/-- The function `OperationBuilder::build_child_nodes`: merge one mode's operations into a
single comma-joined node. -/
def opBuildChildNodes (l : List OperationBuilderE) : Res ExpressionNode :=
  if l.isEmpty then .err (.str "buildChildNodes error: operationBuilder list is empty")
  else
    match opListNodes l with
    | .ok ns => .ok (.from_children_expression ns ("$c" ++ repeatStr ", $c" (l.length - 1)))
    | .err e => .err e
    | .panicked m => .panicked m

/-- The `HashMap<OperationMode, Vec<OperationBuilder>>`, as an association
list with distinct keys. -/
structure UpdateBuilderE where
  operations : List (OperationMode × List OperationBuilderE)

def UpdateBuilderE.default : UpdateBuilderE := ⟨[]⟩

/-- The map update `entry(mode).or_insert_with(Vec::new).push(op)`. -/
def entryPush (m : OperationMode) (op : OperationBuilderE) :
    List (OperationMode × List OperationBuilderE) →
      List (OperationMode × List OperationBuilderE)
  | [] => [(m, [op])]
  | (k, v) :: rest => if k = m then (k, v ++ [op]) :: rest else (k, v) :: entryPush m op rest

def UpdateBuilderE.setOp (ub : UpdateBuilderE) (n : String) (op : OperandBuilderE) :
    UpdateBuilderE :=
  ⟨entryPush .Set ⟨n, some op, .Set⟩ ub.operations⟩

def UpdateBuilderE.removeOp (ub : UpdateBuilderE) (n : String) : UpdateBuilderE :=
  ⟨entryPush .Remove ⟨n, none, .Remove⟩ ub.operations⟩

def UpdateBuilderE.addOp (ub : UpdateBuilderE) (n : String) (v : ValueBuilderE) :
    UpdateBuilderE :=
  ⟨entryPush .Add ⟨n, some (valueFn v), .Add⟩ ub.operations⟩

def UpdateBuilderE.deleteOp (ub : UpdateBuilderE) (n : String) (v : ValueBuilderE) :
    UpdateBuilderE :=
  ⟨entryPush .Delete ⟨n, some (valueFn v), .Delete⟩ ub.operations⟩

def setU (n : String) (op : OperandBuilderE) : UpdateBuilderE := UpdateBuilderE.default.setOp n op

def removeU (n : String) : UpdateBuilderE := UpdateBuilderE.default.removeOp n

def addU (n : String) (v : ValueBuilderE) : UpdateBuilderE := UpdateBuilderE.default.addOp n v

def deleteU (n : String) (v : ValueBuilderE) : UpdateBuilderE :=
  UpdateBuilderE.default.deleteOp n v

def assocLookupOp (k : OperationMode) :
    List (OperationMode × List OperationBuilderE) → Option (List OperationBuilderE)
  | [] => none
  | (k2, v) :: rest => if k2 = k then some v else assocLookupOp k rest

/-- The per-mode loop of `UpdateBuilder::build_tree`, over the already-sorted
mode list. -/
def updateModesLoop (ops : List (OperationMode × List OperationBuilderE)) :
    List OperationMode → String → List ExpressionNode → Res ExpressionNode
  | [], fmt, children => .ok (.mk [] [] children fmt)
  | m :: ms, fmt, children =>
    match assocLookupOp m ops with
    | none => .panicked "no entry found for key"
    | some l =>
      match opBuildChildNodes l with
      | .ok child => updateModesLoop ops ms (fmt ++ m.as_str ++ " $c\n") (children ++ [child])
      | .err e => .err e
      | .panicked msg => .panicked msg

def UpdateBuilderE.build_tree (ub : UpdateBuilderE) : Res ExpressionNode :=
  if ub.operations.isEmpty then .err (.typed (.UnsetParameterError "buildTree" "UpdateBuilder"))
  else
    updateModesLoop ub.operations
      (List.insertionSort (fun a b => a.rank ≤ b.rank) (ub.operations.map Prod.fst)) "" []

/-! ### Top-level Builder and Expression (expression.rs) -/

/-- The enum `ExpressionType`, in its declaration order (the derived `Ord` that
`keys.sort()` uses follows this order). -/
inductive ExpressionType where
  | Projection
  | KeyCondition
  | Condition
  | Filter
  | Update
deriving DecidableEq, Repr

def ExpressionType.rank : ExpressionType → Nat
  | .Projection => 0
  | .KeyCondition => 1
  | .Condition => 2
  | .Filter => 3
  | .Update => 4

/-- The closed set of `TreeBuilder` implementors a `Builder` can hold. -/
inductive TreeBuilderE where
  | cond (c : ConditionBuilderE)
  | keyCond (k : KeyConditionBuilderE)
  | proj (p : ProjectionBuilderE)
  | upd (u : UpdateBuilderE)

def TreeBuilderE.build_tree : TreeBuilderE → Res ExpressionNode
  | .cond c => c.build_tree
  | .keyCond k => k.build_tree
  | .proj p => p.build_tree
  | .upd u => u.build_tree

/-- The `HashMap<ExpressionType, Box<dyn TreeBuilder>>`, as an association
list with distinct keys (`insert` overwrites the value of an existing key). -/
structure Builder where
  expressions : List (ExpressionType × TreeBuilderE)

def Builder.new : Builder := ⟨[]⟩

def mapInsertT (k : ExpressionType) (v : TreeBuilderE) :
    List (ExpressionType × TreeBuilderE) → List (ExpressionType × TreeBuilderE)
  | [] => [(k, v)]
  | (k2, v2) :: rest =>
    if k2 = k then (k, v) :: rest else (k2, v2) :: mapInsertT k v rest

def Builder.with_condition (b : Builder) (c : ConditionBuilderE) : Builder :=
  ⟨mapInsertT .Condition (.cond c) b.expressions⟩

def Builder.with_projection (b : Builder) (p : ProjectionBuilderE) : Builder :=
  ⟨mapInsertT .Projection (.proj p) b.expressions⟩

def Builder.with_key_condition (b : Builder) (k : KeyConditionBuilderE) : Builder :=
  ⟨mapInsertT .KeyCondition (.keyCond k) b.expressions⟩

def Builder.with_filter (b : Builder) (c : ConditionBuilderE) : Builder :=
  ⟨mapInsertT .Filter (.cond c) b.expressions⟩

def Builder.with_update (b : Builder) (u : UpdateBuilderE) : Builder :=
  ⟨mapInsertT .Update (.upd u) b.expressions⟩

def assocLookupT (k : ExpressionType) :
    List (ExpressionType × TreeBuilderE) → Option TreeBuilderE
  | [] => none
  | (k2, v) :: rest => if k2 = k then some v else assocLookupT k rest

def assocLookupS (k : ExpressionType) :
    List (ExpressionType × String) → Option String
  | [] => none
  | (k2, v) :: rest => if k2 = k then some v else assocLookupS k rest

/-- The per-kind loop of `build_child_trees`, over the already-sorted key
list: build each kind's tree and render it against the one shared
`AliasList`. -/
def buildKeysLoop (exprs : List (ExpressionType × TreeBuilderE)) :
    List ExpressionType → AliasList → List (ExpressionType × String) →
      Res (AliasList × List (ExpressionType × String))
  | [], al, acc => .ok (al, acc)
  | k :: ks, al, acc =>
    match assocLookupT k exprs with
    | none => .panicked "no entry found for key"
    | some tb =>
      match tb.build_tree with
      | .err e => .err e
      | .panicked m => .panicked m
      | .ok node =>
        match node.build_expression_string al with
        | .err e => .err e
        | .panicked m => .panicked m
        | .ok (s, al2) => buildKeysLoop exprs ks al2 (acc ++ [(k, s)])

/-- The method `Builder::build_child_trees`: collect the present kinds, sort them by the
enum ordinal, then render each against one fresh shared `AliasList`. -/
def Builder.build_child_trees (b : Builder) :
    Res (AliasList × List (ExpressionType × String)) :=
  buildKeysLoop b.expressions
    (List.insertionSort (fun a b => a.rank ≤ b.rank) (b.expressions.map Prod.fst))
    AliasList.empty []

/-- The final `Expression` value: the per-kind formatted strings plus the two
optional alias maps (absent, not empty, when no alias was assigned). -/
structure Expression where
  expressions : List (ExpressionType × String)
  names : Option (List (String × String))
  values : Option (List (String × AttributeValue))

def Builder.build (b : Builder) : Res Expression :=
  match b.build_child_trees with
  | .err e => .err e
  | .panicked m => .panicked m
  | .ok (alias_list, exprs) =>
    .ok
      { expressions := exprs
      , names :=
          if alias_list.names.isEmpty then none
          else some (alias_list.names.enum.map fun p => ("#" ++ toString p.1, p.2))
      , values :=
          if alias_list.values.isEmpty then none
          else some (alias_list.values.enum.map fun p => (":" ++ toString p.1, p.2)) }

def Expression.return_expression (e : Expression) (t : ExpressionType) : Option String :=
  assocLookupS t e.expressions

def Expression.condition (e : Expression) : Option String := e.return_expression .Condition

def Expression.filter (e : Expression) : Option String := e.return_expression .Filter

def Expression.projection (e : Expression) : Option String := e.return_expression .Projection

def Expression.key_condition (e : Expression) : Option String :=
  e.return_expression .KeyCondition

def Expression.update (e : Expression) : Option String := e.return_expression .Update

/-! ### Auxiliary definitions used by the verification theorems -/

/-- The five expression kinds in the enum's declaration order: this is the
order `keys.sort()` produces, hence the order `build_child_trees` renders. -/
def kindOrder : List ExpressionType :=
  [.Projection, .KeyCondition, .Condition, .Filter, .Update]

/-- Modelled from the spec: the spec instead asserts the fixed total order
Condition < Filter < Projection < KeyCondition < Update for rendering the
present kinds in one build. -/
def specKindOrder : List ExpressionType :=
  [.Condition, .Filter, .Projection, .KeyCondition, .Update]

/-- Modelled from the spec: `build_child_trees` as the spec describes it,
rendering the present kinds in `specKindOrder` against one shared fresh
`AliasList`.  Used to compare the spec's claimed rendering order with the
code's. -/
def specOrderChildTrees (b : Builder) : Res (AliasList × List (ExpressionType × String)) :=
  buildKeysLoop b.expressions
    (specKindOrder.filter (fun k => decide (k ∈ b.expressions.map Prod.fst)))
    AliasList.empty []

/-- The four update operation modes in declaration order (`modes.sort()`). -/
def modeOrder : List OperationMode := [.Set, .Remove, .Add, .Delete]

/-- The compound fixture from the source's test suite: all five kinds in one
build. -/
def exCompound : Builder :=
  ((((Builder.new.with_condition (equalC (nameFn "foo") (valueFn (.vI64 5)))).with_filter
      (less_thanC (nameFn "bar") (valueFn (.vI64 6)))).with_projection
      (names_list "foo" ["bar", "baz"])).with_key_condition
      (key_equal "foo" (.vI64 5))).with_update (setU "foo" (valueFn (.vI64 5)))

/-- Whether the renderer's left-to-right scan of a template hits a bad
escape: a lone trailing dollar, or a dollar followed by a rune other than
n, v, c. -/
def badFmt : List Char → Bool
  | [] => false
  | ch :: rest1 =>
    if ch = '$' then
      match rest1 with
      | [] => true
      | r :: rest2 => if r = 'n' ∨ r = 'v' ∨ r = 'c' then badFmt rest2 else true
    else badFmt rest1

/-- The number of escapes with rune `x` the renderer's scan consumes. -/
def cntEsc (x : Char) : List Char → Nat
  | [] => 0
  | ch :: rest1 =>
    if ch = '$' then
      match rest1 with
      | [] => 0
      | r :: rest2 => (if r = x then 1 else 0) + cntEsc x rest2
    else cntEsc x rest1

/-- One word of a name path, as the spec describes it: reject an empty word,
split off the bracketed suffix (verbatim, from the first opening bracket)
when the word ends in a closing bracket, and reject an empty remaining
prefix; returns (prefix, suffix). -/
def procWord (word : List Char) : Option (List Char × List Char) :=
  if word.isEmpty then none
  else
    let stripped : List Char × List Char :=
      if word.getLast? = some ']' then
        match findBracket word with
        | some j => (word.take j, word.drop j)
        | none => (word, [])
      else (word, [])
    if stripped.1.isEmpty then none else some stripped

/-- Process every word of a split name, failing (None) as soon as one word is
invalid: the spec-level description of the per-word loop. -/
def procWords : List (List Char) → Option (List (List Char × List Char))
  | [] => some []
  | w :: ws =>
    match procWord w with
    | none => none
    | some p =>
      match procWords ws with
      | none => none
      | some ps => some (p :: ps)

/-- An update fixture touching all four operation modes, added in the order
Delete, Add, Remove, Set (deliberately not the render order). -/
def exUpdate : UpdateBuilderE :=
  (((deleteU "qux" (.vI64 8)).addOp "baz" (.vI64 7)).removeOp "bar").setOp "foo"
    (valueFn (.vI64 5))

/-! ### Helper lemmas -/

theorem insertionSort_rank_eq_filter {α : Type} [DecidableEq α] (rank : α → Nat)
    (inj : ∀ a b, rank a = rank b → a = b)
    (E : List α) (hcomp : ∀ a, a ∈ E)
    (hsortE : E.Sorted (fun a b => rank a ≤ rank b))
    (hnodupE : E.Nodup) (l : List α) (hl : l.Nodup) :
    List.insertionSort (fun a b => rank a ≤ rank b) l
      = E.filter (fun x => decide (x ∈ l)) := by
  haveI htot : IsTotal α (fun a b => rank a ≤ rank b) := ⟨fun a b => Nat.le_total _ _⟩
  haveI htrans : IsTrans α (fun a b => rank a ≤ rank b) :=
    ⟨fun _ _ _ hab hbc => Nat.le_trans hab hbc⟩
  haveI hanti : IsAntisymm α (fun a b => rank a ≤ rank b) :=
    ⟨fun a b hab hba => inj a b (Nat.le_antisymm hab hba)⟩
  refine List.eq_of_perm_of_sorted ?_ (List.sorted_insertionSort _ l) (hsortE.filter _)
  refine (List.perm_insertionSort _ l).trans ?_
  rw [List.perm_ext_iff_of_nodup hl (hnodupE.filter _)]
  intro a
  simp [List.mem_filter, hcomp a]

/-! ### Claim theorems -/

/-- Claim C4: calling build_tree() on a default-constructed ConditionBuilder,
KeyConditionBuilder, ProjectionBuilder, or UpdateBuilder always returns an
UnsetParameter error with function "buildTree" and the exact builder type as
subject; it never succeeds and never panics. -/
theorem C4_default_builders_unset_error :
    ConditionBuilderE.default.build_tree
        = .err (.typed (.UnsetParameterError "buildTree" "ConditionBuilder")) ∧
    KeyConditionBuilderE.default.build_tree
        = .err (.typed (.UnsetParameterError "buildTree" "KeyConditionBuilder")) ∧
    ProjectionBuilderE.default.build_tree
        = .err (.typed (.UnsetParameterError "buildTree" "ProjectionBuilder")) ∧
    UpdateBuilderE.default.build_tree
        = .err (.typed (.UnsetParameterError "buildTree" "UpdateBuilder")) :=
  ⟨rfl, rfl, rfl, rfl⟩

/-- Claim C9: build() on a Builder with no expression kind succeeds, and the
resulting Expression answers None from every getter, including names() and
values(). -/
theorem C9_empty_builder_build_succeeds :
    ∃ e : Expression, Builder.new.build = .ok e ∧
      e.condition = none ∧ e.filter = none ∧ e.projection = none ∧
      e.key_condition = none ∧ e.update = none ∧
      e.names = none ∧ e.values = none :=
  ⟨{ expressions := [], names := none, values := none },
    rfl, rfl, rfl, rfl, rfl, rfl, rfl, rfl⟩

theorem findFirst_spec (nm : String) (names : List String) (idx : Nat)
    (h : findFirst nm names = some idx) :
    names.get? idx = some nm ∧ ∀ j, j < idx → names.get? j ≠ some nm := by
  induction names generalizing idx with
  | nil => simp [findFirst] at h
  | cons x xs ih =>
    by_cases hx : nm = x
    · simp [findFirst, hx] at h
      subst h
      subst hx
      exact ⟨rfl, fun j hj => absurd hj (Nat.not_lt_zero j)⟩
    · simp [findFirst, hx] at h
      obtain ⟨i, hi, rfl⟩ := h
      have hspec := ih i hi
      refine ⟨by simpa using hspec.1, ?_⟩
      intro j hj
      match j with
      | 0 => simpa using fun hcontra => hx hcontra.symm
      | j + 1 =>
        have : j < i := Nat.lt_of_succ_lt_succ hj
        simpa using hspec.2 j this

theorem findFirst_isSome_of_mem (nm : String) (names : List String) (h : nm ∈ names) :
    ∃ idx, findFirst nm names = some idx := by
  induction names with
  | nil => simp at h
  | cons x xs ih =>
    by_cases hx : nm = x
    · exact ⟨0, by simp [findFirst, hx]⟩
    · have hmem : nm ∈ xs := by
        rcases List.mem_cons.mp h with h1 | h1
        · exact absurd h1 hx
        · exact h1
      obtain ⟨i, hi⟩ := ih hmem
      exact ⟨i + 1, by simp [findFirst, hx, hi]⟩

theorem findFirst_eq_none_of_not_mem (nm : String) (names : List String) (h : nm ∉ names) :
    findFirst nm names = none := by
  induction names with
  | nil => rfl
  | cons x xs ih =>
    have hx : nm ≠ x := fun hc => h (hc ▸ List.mem_cons_self x xs)
    have hmem : nm ∉ xs := fun hc => h (List.mem_cons_of_mem x hc)
    simp [findFirst, hx, ih hmem]

/-- Claim C2: within one build, attribute-path aliasing deduplicates by exact
string equality (a path equal to one already aliased yields the token of its
first occurrence, and the table is unchanged; a new path is appended at the
next index), while value aliasing never deduplicates (every consumption
appends and yields the token of the next index, even for a value equal to an
earlier one).  The final conjunct is the spec's scenario: two conditions on
path "foo" with the equal literal 5 render to the same name token but two
distinct value tokens. -/
theorem C2_alias_dedup_names_no_dedup_values :
    (∀ (al : AliasList) (nm : String) (idx : Nat),
        findFirst nm al.names = some idx →
        al.alias_path nm = ("#" ++ toString idx, al) ∧
        al.names.get? idx = some nm ∧ ∀ j, j < idx → al.names.get? j ≠ some nm) ∧
    (∀ (al : AliasList) (nm : String), nm ∈ al.names →
        ∃ idx, findFirst nm al.names = some idx) ∧
    (∀ (al : AliasList) (nm : String), nm ∉ al.names →
        al.alias_path nm = ("#" ++ toString al.names.length, ⟨al.names ++ [nm], al.values⟩)) ∧
    (∀ (al : AliasList) (v : AttributeValue),
        al.alias_value v = (":" ++ toString al.values.length, ⟨al.names, al.values ++ [v]⟩) ∧
        (al.alias_value v).2.values.length = al.values.length + 1) ∧
    (Builder.new.with_condition
        (andC (equalC (nameFn "foo") (valueFn (.vI64 5)))
              (equalC (nameFn "foo") (valueFn (.vI64 5))))).build
      = .ok { expressions := [(.Condition, "(#0 = :0) AND (#0 = :1)")]
            , names := some [("#0", "foo")]
            , values := some [(":0", .N "5"), (":1", .N "5")] } := by
  refine ⟨?_, ?_, ?_, ?_, ?_⟩
  · intro al nm idx h
    exact ⟨by simp [AliasList.alias_path, h], findFirst_spec nm al.names idx h⟩
  · intro al nm h
    exact findFirst_isSome_of_mem nm al.names h
  · intro al nm h
    simp [AliasList.alias_path, findFirst_eq_none_of_not_mem nm al.names h]
  · intro al v
    exact ⟨rfl, by simp [AliasList.alias_value]⟩
  · rfl

theorem C2_witness :
    (findFirst "foo" ["bar", "foo", "foo"] = some 1 ∧
      AliasList.alias_path ⟨["bar", "foo", "foo"], []⟩ "foo" = ("#1", ⟨["bar", "foo", "foo"], []⟩)) ∧
    ("baz" ∉ (["bar", "foo"] : List String) ∧
      AliasList.alias_path ⟨["bar", "foo"], []⟩ "baz" = ("#2", ⟨["bar", "foo", "baz"], []⟩)) := by
  refine ⟨⟨by decide, ?_⟩, ⟨by decide, ?_⟩⟩
  · exact (C2_alias_dedup_names_no_dedup_values.1 ⟨["bar", "foo", "foo"], []⟩ "foo" 1
      (by decide)).1
  · exact C2_alias_dedup_names_no_dedup_values.2.2.1 ⟨["bar", "foo"], []⟩ "baz" (by decide)

/-- Claim C3: a Value builder wrapping an empty string list (either string
flavor), an empty generic collection, or an empty map produces the NULL
attribute value (Null true), never an empty SS/L/M; non-empty collections
produce the corresponding SS/L/M value. -/
theorem C3_empty_collections_become_null :
    ValueBuilderE.attribute_value (.vStringVec []) = .Null true ∧
    ValueBuilderE.attribute_value (.vStrVec []) = .Null true ∧
    ValueBuilderE.attribute_value (.vList []) = .Null true ∧
    ValueBuilderE.attribute_value (.vMap []) = .Null true ∧
    (valueFn (.vStringVec [])).build_operand = .ok (.from_values [.Null true] "$v") ∧
    (valueFn (.vList [])).build_operand = .ok (.from_values [.Null true] "$v") ∧
    (∀ l : List String, l ≠ [] → ValueBuilderE.attribute_value (.vStringVec l) = .Ss l) ∧
    (∀ l : List String, l ≠ [] → ValueBuilderE.attribute_value (.vStrVec l) = .Ss l) ∧
    (∀ l : List ValueBuilderE, l ≠ [] →
      ValueBuilderE.attribute_value (.vList l) = .L (attribute_value_list l)) ∧
    (∀ m : List (String × ValueBuilderE), m ≠ [] →
      ValueBuilderE.attribute_value (.vMap m) = .M (attribute_value_map m)) ∧
    (∀ l : List String, ValueBuilderE.attribute_value (.vStringVec l) ≠ .Ss []) ∧
    (∀ l : List ValueBuilderE, ValueBuilderE.attribute_value (.vList l) ≠ .L []) ∧
    (∀ m : List (String × ValueBuilderE), ValueBuilderE.attribute_value (.vMap m) ≠ .M []) := by
  refine ⟨rfl, rfl, rfl, rfl, rfl, rfl, ?_, ?_, ?_, ?_, ?_, ?_, ?_⟩
  · intro l hl
    simp [ValueBuilderE.attribute_value, hl]
  · intro l hl
    simp [ValueBuilderE.attribute_value, hl]
  · intro l hl
    simp [ValueBuilderE.attribute_value, hl]
  · intro m hm
    simp [ValueBuilderE.attribute_value, hm]
  · intro l
    match l with
    | [] => simp [ValueBuilderE.attribute_value]
    | x :: xs => simp [ValueBuilderE.attribute_value]
  · intro l
    match l with
    | [] => simp [ValueBuilderE.attribute_value]
    | x :: xs => simp [ValueBuilderE.attribute_value, attribute_value_list]
  · intro m
    match m with
    | [] => simp [ValueBuilderE.attribute_value]
    | x :: xs => simp [ValueBuilderE.attribute_value, attribute_value_map]

theorem C3_witness :
    ValueBuilderE.attribute_value (.vStringVec ["a"]) = .Ss ["a"] ∧
    ValueBuilderE.attribute_value (.vStrVec ["a", "b"]) = .Ss ["a", "b"] ∧
    ValueBuilderE.attribute_value (.vList [.vI64 7]) = .L [.N "7"] ∧
    ValueBuilderE.attribute_value (.vMap [("k", .vBool true)]) = .M [("k", .Bool true)] :=
  ⟨C3_empty_collections_become_null.2.2.2.2.2.2.1 ["a"] (by decide),
    C3_empty_collections_become_null.2.2.2.2.2.2.2.1 ["a", "b"] (by decide),
    C3_empty_collections_become_null.2.2.2.2.2.2.2.2.1 [.vI64 7] (by simp),
    C3_empty_collections_become_null.2.2.2.2.2.2.2.2.2.1 [("k", .vBool true)] (by simp)⟩

/-- Claim C5: key_and never errors or panics at combination time; an illegal
combination (left not Equal, or right an And) yields the Invalid-tagged
builder with empty operand and child lists, whose build_tree() then fails
with the plain string error; a legal combination builds the two-clause AND
node with template "($c) AND ($c)". -/
theorem C5_key_and_invalid_and_legal :
    (∀ l r : KeyConditionBuilderE, l.mode ≠ .Equal ∨ r.mode = .And →
        key_and l r = .mk [] [] .Invalid ∧
        (key_and l r).build_tree
          = .err (.str "buildKeyCondition error: invalid key condition constructed")) ∧
    (∀ l r : KeyConditionBuilderE, l.mode = .Equal → r.mode ≠ .And →
        key_and l r = .mk [] [l, r] .And ∧
        ∀ nl nr : ExpressionNode, l.build_tree = .ok nl → r.build_tree = .ok nr →
          (key_and l r).build_tree
            = .ok (.from_children_expression [nl, nr] "($c) AND ($c)")) := by
  constructor
  · intro l r h
    have heq : key_and l r = .mk [] [] .Invalid := by
      by_cases hl : l.mode = KeyConditionMode.Equal
      · have hr : r.mode = KeyConditionMode.And := by
          rcases h with h1 | h1
          · exact absurd hl h1
          · exact h1
        simp [key_and, hl, hr]
      · simp [key_and, hl]
    exact ⟨heq, by rw [heq]; rfl⟩
  · intro l r hl hr
    have heq : key_and l r = .mk [] [l, r] .And := by
      simp [key_and, hl, hr]
    refine ⟨heq, ?_⟩
    intro nl nr hnl hnr
    rw [heq]
    simp [KeyConditionBuilderE.build_tree, keyCondChildNodes, hnl, hnr, operandChildNodes,
      and_build_key_condition, KeyConditionBuilderE.key_condition_list,
      KeyConditionBuilderE.operand_list, ExpressionNode.from_children,
      ExpressionNode.withFmt, ExpressionNode.from_children_expression,
      ExpressionNode.names, ExpressionNode.values, ExpressionNode.children]

theorem C5_witness :
    ((key_and (key_less_than "foo" (.vI64 5)) (key_begins_with "bar" "baz")).build_tree
        = .err (.str "buildKeyCondition error: invalid key condition constructed")) ∧
    ((key_and (key_equal "foo" (.vI64 5)) (key_begins_with "bar" "baz")).build_tree
        = .ok (.from_children_expression
            [.from_children_expression
              [.from_names ["foo"] "$n", .from_values [.N "5"] "$v"] "$c = $c",
             .from_children_expression
              [.from_names ["bar"] "$n", .from_values [.S "baz"] "$v"] "begins_with ($c, $c)"]
            "($c) AND ($c)")) :=
  ⟨(C5_key_and_invalid_and_legal.1 (key_less_than "foo" (.vI64 5))
      (key_begins_with "bar" "baz") (Or.inl (by decide))).2,
    (C5_key_and_invalid_and_legal.2 (key_equal "foo" (.vI64 5))
      (key_begins_with "bar" "baz") (by decide) (by decide)).2 _ _ rfl rfl⟩

/-- Claim C10 (counterexample): with subject name("") the In build does
return an Err (the operand fails before in_build_condition runs), refuting
the claim's "for every subject operand ... does not return an Err". -/
theorem C10_counterexample :
    (inC (nameFn "") []).build_tree = .err unsetName ∧
    (inC (nameFn "") []).build_tree.isErr :=
  ⟨rfl, trivial⟩

/-- Claim C10 (amended): for every subject operand that builds successfully,
constructing In with an empty candidate list (operand list of length 1) and
calling build_tree() panics at the unsigned underflow of
operand_list.len() - 2 — the render aborts by panic, not through the
error-result channel. -/
theorem C10_in_empty_candidates_panics :
    ∀ (op : OperandBuilderE) (node : ExpressionNode), op.build_operand = .ok node →
      (inC op []).build_tree = .panicked "attempt to subtract with overflow" := by
  intro op node h
  simp [inC, ConditionBuilderE.build_tree, condChildNodes, operandChildNodes, h,
    in_build_condition, ConditionBuilderE.operand_list]

theorem C10_witness :
    (nameFn "foo").build_operand = .ok (.from_names ["foo"] "$n") ∧
    (inC (nameFn "foo") []).build_tree = .panicked "attempt to subtract with overflow" :=
  ⟨rfl, C10_in_empty_candidates_panics (nameFn "foo") (.from_names ["foo"] "$n") rfl⟩

/-- Claim C1 (counterexample): in the compound build (all five kinds
present), the code's build gives the Condition expression "#0 = :1" — its
value alias was assigned after the KeyCondition's — while traversing the
kinds in the claimed order Condition, Filter, Projection, KeyCondition,
Update would give the Condition expression "#0 = :0". -/
theorem C1_counterexample :
    (∃ e : Expression, exCompound.build = .ok e ∧ e.condition = some "#0 = :1") ∧
    (specOrderChildTrees exCompound
      = .ok (⟨["foo", "bar", "baz"], [.N "5", .N "6", .N "5", .N "5"]⟩,
          [(.Condition, "#0 = :0"), (.Filter, "#1 < :1"), (.Projection, "#0, #1, #2"),
           (.KeyCondition, "#0 = :2"), (.Update, "SET #0 = :3\n")])) ∧
    ("#0 = :1" : String) ≠ "#0 = :0" :=
  ⟨⟨{ expressions :=
        [(.Projection, "#0, #1, #2"), (.KeyCondition, "#0 = :0"),
         (.Condition, "#0 = :1"), (.Filter, "#1 < :2"), (.Update, "SET #0 = :3\n")]
    , names := some [("#0", "foo"), ("#1", "bar"), ("#2", "baz")]
    , values := some [(":0", .N "5"), (":1", .N "5"), (":2", .N "6"), (":3", .N "5")] },
    rfl, rfl⟩, rfl, by decide⟩

/-- Claim C1 (amended): build_child_trees renders the present kinds against
the single shared AliasList in the fixed total order Projection, then
KeyCondition, then Condition, then Filter, then Update — the ExpressionType
declaration ordinal that keys.sort() uses — regardless of the order the kinds
were added, so the alias numbers are those of that traversal order.  The
second conjunct pins the resulting alias numbers on the compound fixture. -/
theorem C1_kinds_rendered_in_ordinal_order :
    (∀ b : Builder, (b.expressions.map Prod.fst).Nodup →
      b.build_child_trees
        = buildKeysLoop b.expressions
            (kindOrder.filter (fun k => decide (k ∈ b.expressions.map Prod.fst)))
            AliasList.empty []) ∧
    exCompound.build
      = .ok { expressions :=
                [(.Projection, "#0, #1, #2"), (.KeyCondition, "#0 = :0"),
                 (.Condition, "#0 = :1"), (.Filter, "#1 < :2"), (.Update, "SET #0 = :3\n")]
            , names := some [("#0", "foo"), ("#1", "bar"), ("#2", "baz")]
            , values :=
                some [(":0", .N "5"), (":1", .N "5"), (":2", .N "6"), (":3", .N "5")] } := by
  constructor
  · intro b hnodup
    unfold Builder.build_child_trees
    congr 1
    refine insertionSort_rank_eq_filter ExpressionType.rank ?_ kindOrder ?_ ?_ (by decide)
      _ hnodup
    · intro a b
      cases a <;> cases b <;> simp_all [ExpressionType.rank]
    · intro a
      cases a <;> simp [kindOrder]
    · decide
  · rfl

theorem C1_witness :
    (exCompound.expressions.map Prod.fst).Nodup ∧
    exCompound.build_child_trees
      = buildKeysLoop exCompound.expressions
          (kindOrder.filter (fun k => decide (k ∈ exCompound.expressions.map Prod.fst)))
          AliasList.empty [] := by
  have h : (exCompound.expressions.map Prod.fst).Nodup := by decide
  exact ⟨h, C1_kinds_rendered_in_ordinal_order.1 exCompound h⟩

/-- Claim C7: build_tree() on a non-empty UpdateBuilder renders one
"<MODE_KEYWORD> $c\n" line per present mode, in the fixed mode-ordinal order
Set, Remove, Add, Delete regardless of insertion order; one mode's merged
child has template "$c, $c, ..." with one slot per operation in insertion
order; and a Remove operation ignores any supplied operand, contributing
only its name child. -/
theorem C7_update_modes_fixed_order :
    (∀ ub : UpdateBuilderE, (ub.operations.map Prod.fst).Nodup →
      ub.operations.map Prod.fst ≠ [] →
      ub.build_tree
        = updateModesLoop ub.operations
            (modeOrder.filter (fun m => decide (m ∈ ub.operations.map Prod.fst))) "" []) ∧
    (∀ (n : String) (v : OperandBuilderE),
      OperationBuilderE.build_operation ⟨n, some v, .Remove⟩
        = OperationBuilderE.build_operation ⟨n, none, .Remove⟩) ∧
    (∀ l : List OperationBuilderE, l ≠ [] →
      opBuildChildNodes l
        = match opListNodes l with
          | .ok ns =>
            .ok (.from_children_expression ns ("$c" ++ repeatStr ", $c" (l.length - 1)))
          | .err e => .err e
          | .panicked m => .panicked m) ∧
    (∃ node : ExpressionNode, exUpdate.build_tree = .ok node ∧
      node.fmt_expression = "SET $c\nREMOVE $c\nADD $c\nDELETE $c\n" ∧
      node.children.length = 4) ∧
    (Builder.new.with_update exUpdate).build
      = .ok { expressions := [(.Update, "SET #0 = :0\nREMOVE #1\nADD #2 :1\nDELETE #3 :2\n")]
            , names := some [("#0", "foo"), ("#1", "bar"), ("#2", "baz"), ("#3", "qux")]
            , values := some [(":0", .N "5"), (":1", .N "7"), (":2", .N "8")] } := by
  refine ⟨?_, ?_, ?_, ⟨_, rfl, rfl, rfl⟩, rfl⟩
  · intro ub hnodup hne
    have hops : ¬ub.operations.isEmpty = true := by
      intro hc
      exact hne (by simp [List.isEmpty_iff.mp hc])
    unfold UpdateBuilderE.build_tree
    rw [if_neg hops]
    congr 1
    refine insertionSort_rank_eq_filter OperationMode.rank ?_ modeOrder ?_ ?_ (by decide)
      _ hnodup
    · intro a b
      cases a <;> cases b <;> simp_all [OperationMode.rank]
    · intro a
      cases a <;> simp [modeOrder]
    · decide
  · intro n v
    cases h : name_build_operand n <;>
      simp [OperationBuilderE.build_operation, h]
  · intro l hl
    have hle : ¬l.isEmpty = true := by
      intro hc
      exact hl (List.isEmpty_iff.mp hc)
    unfold opBuildChildNodes
    rw [if_neg hle]

theorem C7_witness :
    (exUpdate.operations.map Prod.fst).Nodup ∧
    exUpdate.operations.map Prod.fst ≠ [] ∧
    exUpdate.build_tree
      = updateModesLoop exUpdate.operations
          (modeOrder.filter (fun m => decide (m ∈ exUpdate.operations.map Prod.fst))) "" [] ∧
    OperationBuilderE.build_operation ⟨"attr", some (valueFn (.vI64 1)), .Remove⟩
      = OperationBuilderE.build_operation ⟨"attr", none, .Remove⟩ := by
  have h1 : (exUpdate.operations.map Prod.fst).Nodup := by decide
  have h2 : exUpdate.operations.map Prod.fst ≠ [] := by decide
  exact ⟨h1, h2, C7_update_modes_fixed_order.1 exUpdate h1 h2,
    C7_update_modes_fixed_order.2.1 "attr" (valueFn (.vI64 1))⟩

theorem Res.isOk_iff {α : Type} (r : Res α) : r.isOk ↔ ∃ a, r = .ok a := by
  cases r <;> simp [Res.isOk]

theorem Res.isErr_iff {α : Type} (r : Res α) : r.isErr ↔ ∃ e, r = .err e := by
  cases r <;> simp [Res.isErr]

theorem nodeDepth_le_of_mem {c : ExpressionNode} {cs : List ExpressionNode} (h : c ∈ cs) :
    nodeDepth c ≤ nodeDepthL cs := by
  induction cs with
  | nil => simp at h
  | cons x xs ih =>
    rcases List.mem_cons.mp h with rfl | h2
    · simp only [nodeDepthL]
      exact Nat.le_max_left _ _
    · simp only [nodeDepthL]
      exact Nat.le_trans (ih h2) (Nat.le_max_right _ _)

theorem processFmt_ok_or_err
    (sub : ExpressionNode → AliasList → Res (String × AliasList))
    (node : ExpressionNode)
    (hsub : ∀ (c : ExpressionNode) (al : AliasList), c ∈ node.children →
      (sub c al).isOk ∨ (sub c al).isErr) :
    ∀ (rest : List Char) (ni vi ci : Nat) (acc : String) (al : AliasList),
      (processFmt sub node rest ni vi ci acc al).isOk ∨
        (processFmt sub node rest ni vi ci acc al).isErr := by
  suffices H : ∀ (k : Nat) (rest : List Char), rest.length ≤ k →
      ∀ (ni vi ci : Nat) (acc : String) (al : AliasList),
        (processFmt sub node rest ni vi ci acc al).isOk ∨
          (processFmt sub node rest ni vi ci acc al).isErr by
    intro rest
    exact H rest.length rest (Nat.le_refl _)
  intro k
  induction k with
  | zero =>
    intro rest hlen ni vi ci acc al
    have hnil : rest = [] := List.eq_nil_of_length_eq_zero (Nat.le_zero.mp hlen)
    subst hnil
    exact Or.inl trivial
  | succ k ih =>
    intro rest hlen ni vi ci acc al
    cases rest with
    | nil => exact Or.inl trivial
    | cons ch rest1 =>
      cases rest1 with
      | nil =>
        by_cases hch : ch = '$'
        · right
          simp [processFmt, hch, Res.isErr]
        · left
          simp [processFmt, hch, Res.isOk]
      | cons r rest2 =>
        have hlen1 : (r :: rest2).length ≤ k := by simp at hlen ⊢; omega
        have hlen2 : rest2.length ≤ k := by simp at hlen; omega
        by_cases hch : ch = '$'
        · subst hch
          by_cases hrn : r = 'n'
          · subst hrn
            cases hg : node.names[ni]? with
            | none =>
              right
              simp [processFmt, substitutePath, hg, Res.isErr]
            | some nm =>
              rcases hap : al.alias_path nm with ⟨tok, al2⟩
              have hrec := ih rest2 hlen2 (ni + 1) vi ci (acc ++ tok) al2
              simpa [processFmt, substitutePath, hg, hap] using hrec
          · by_cases hrv : r = 'v'
            · subst hrv
              cases hg : node.values[vi]? with
              | none =>
                right
                simp [processFmt, substituteValue, hg, Res.isErr]
              | some v =>
                rcases hap : al.alias_value v with ⟨tok, al2⟩
                have hrec := ih rest2 hlen2 ni (vi + 1) ci (acc ++ tok) al2
                simpa [processFmt, substituteValue, hg, hap, hrn] using hrec
            · by_cases hrc : r = 'c'
              · subst hrc
                cases hg : node.children[ci]? with
                | none =>
                  right
                  simp [processFmt, hg, hrn, hrv, Res.isErr]
                | some child =>
                  have hmem : child ∈ node.children := List.get?_mem (by simpa using hg)
                  rcases hsub child al hmem with hok | herr
                  · rcases (Res.isOk_iff _).mp hok with ⟨⟨tok, al2⟩, hres⟩
                    have hrec := ih rest2 hlen2 ni vi (ci + 1) (acc ++ tok) al2
                    simpa [processFmt, hg, hres, hrn, hrv] using hrec
                  · rcases (Res.isErr_iff _).mp herr with ⟨e, hres⟩
                    right
                    simp [processFmt, hg, hres, hrn, hrv, Res.isErr]
              · right
                simp [processFmt, hrn, hrv, hrc, Res.isErr]
        · have hrec := ih (r :: rest2) hlen1 ni vi ci (acc.push ch) al
          simpa [processFmt, hch] using hrec

theorem renderD_ok_or_err :
    ∀ (d : Nat) (node : ExpressionNode), nodeDepth node ≤ d → ∀ al : AliasList,
      (renderD d node al).isOk ∨ (renderD d node al).isErr := by
  intro d
  induction d with
  | zero =>
    intro node hd al
    cases node with
    | mk ns vs cs f => simp [nodeDepth] at hd
  | succ d ih =>
    intro node hd al
    cases node with
    | mk ns vs cs f =>
      simp only [renderD]
      apply processFmt_ok_or_err
      intro c al2 hc
      apply ih
      have h1 : nodeDepth c ≤ nodeDepthL cs := nodeDepth_le_of_mem hc
      have h2 : nodeDepthL cs + 1 ≤ d + 1 := by simpa [nodeDepth] using hd
      omega

theorem processFmt_badFmt_err
    (sub : ExpressionNode → AliasList → Res (String × AliasList))
    (node : ExpressionNode)
    (hsub : ∀ (c : ExpressionNode) (al : AliasList), c ∈ node.children →
      (sub c al).isOk ∨ (sub c al).isErr) :
    ∀ (rest : List Char) (ni vi ci : Nat) (acc : String) (al : AliasList),
      badFmt rest = true → (processFmt sub node rest ni vi ci acc al).isErr := by
  suffices H : ∀ (k : Nat) (rest : List Char), rest.length ≤ k →
      ∀ (ni vi ci : Nat) (acc : String) (al : AliasList),
        badFmt rest = true → (processFmt sub node rest ni vi ci acc al).isErr by
    intro rest
    exact H rest.length rest (Nat.le_refl _)
  intro k
  induction k with
  | zero =>
    intro rest hlen ni vi ci acc al hbad
    have hnil : rest = [] := List.eq_nil_of_length_eq_zero (Nat.le_zero.mp hlen)
    subst hnil
    simp [badFmt] at hbad
  | succ k ih =>
    intro rest hlen ni vi ci acc al hbad
    cases rest with
    | nil => simp [badFmt] at hbad
    | cons ch rest1 =>
      cases rest1 with
      | nil =>
        by_cases hch : ch = '$'
        · simp [processFmt, hch, Res.isErr]
        · simp [badFmt, hch] at hbad
      | cons r rest2 =>
        have hlen1 : (r :: rest2).length ≤ k := by simp at hlen ⊢; omega
        have hlen2 : rest2.length ≤ k := by simp at hlen; omega
        by_cases hch : ch = '$'
        · subst hch
          by_cases hrn : r = 'n'
          · subst hrn
            have hbad2 : badFmt rest2 = true := by simpa [badFmt] using hbad
            cases hg : node.names[ni]? with
            | none =>
              simp [processFmt, substitutePath, hg, Res.isErr]
            | some nm =>
              rcases hap : al.alias_path nm with ⟨tok, al2⟩
              have hrec := ih rest2 hlen2 (ni + 1) vi ci (acc ++ tok) al2 hbad2
              simpa [processFmt, substitutePath, hg, hap] using hrec
          · by_cases hrv : r = 'v'
            · subst hrv
              have hbad2 : badFmt rest2 = true := by simpa [badFmt] using hbad
              cases hg : node.values[vi]? with
              | none =>
                simp [processFmt, substituteValue, hg, Res.isErr]
              | some v =>
                rcases hap : al.alias_value v with ⟨tok, al2⟩
                have hrec := ih rest2 hlen2 ni (vi + 1) ci (acc ++ tok) al2 hbad2
                simpa [processFmt, substituteValue, hg, hap, hrn] using hrec
            · by_cases hrc : r = 'c'
              · subst hrc
                have hbad2 : badFmt rest2 = true := by simpa [badFmt] using hbad
                cases hg : node.children[ci]? with
                | none =>
                  simp [processFmt, hg, hrn, hrv, Res.isErr]
                | some child =>
                  have hmem : child ∈ node.children := List.get?_mem (by simpa using hg)
                  rcases hsub child al hmem with hok | herr
                  · rcases (Res.isOk_iff _).mp hok with ⟨⟨tok, al2⟩, hres⟩
                    have hrec := ih rest2 hlen2 ni vi (ci + 1) (acc ++ tok) al2 hbad2
                    simpa [processFmt, hg, hres, hrn, hrv] using hrec
                  · rcases (Res.isErr_iff _).mp herr with ⟨e, hres⟩
                    simp [processFmt, hg, hres, hrn, hrv, Res.isErr]
              · simp [processFmt, hrn, hrv, hrc, Res.isErr]
        · have hbad2 : badFmt (r :: rest2) = true := by simpa [badFmt, hch] using hbad
          have hrec := ih (r :: rest2) hlen1 ni vi ci (acc.push ch) al hbad2
          simpa [processFmt, hch] using hrec

theorem processFmt_names_out_of_range
    (sub : ExpressionNode → AliasList → Res (String × AliasList))
    (node : ExpressionNode)
    (hsub : ∀ (c : ExpressionNode) (al : AliasList), c ∈ node.children →
      (sub c al).isOk ∨ (sub c al).isErr) :
    ∀ (rest : List Char) (ni vi ci : Nat) (acc : String) (al : AliasList),
      ni ≤ node.names.length → node.names.length < cntEsc 'n' rest + ni →
      (processFmt sub node rest ni vi ci acc al).isErr := by
  suffices H : ∀ (k : Nat) (rest : List Char), rest.length ≤ k →
      ∀ (ni vi ci : Nat) (acc : String) (al : AliasList),
        ni ≤ node.names.length → node.names.length < cntEsc 'n' rest + ni →
        (processFmt sub node rest ni vi ci acc al).isErr by
    intro rest
    exact H rest.length rest (Nat.le_refl _)
  intro k
  induction k with
  | zero =>
    intro rest hlen ni vi ci acc al hni hcnt
    have hnil : rest = [] := List.eq_nil_of_length_eq_zero (Nat.le_zero.mp hlen)
    subst hnil
    simp [cntEsc] at hcnt
    omega
  | succ k ih =>
    intro rest hlen ni vi ci acc al hni hcnt
    cases rest with
    | nil =>
      simp [cntEsc] at hcnt
      omega
    | cons ch rest1 =>
      cases rest1 with
      | nil =>
        by_cases hch : ch = '$'
        · simp [processFmt, hch, Res.isErr]
        · simp [cntEsc, hch] at hcnt
          omega
      | cons r rest2 =>
        have hlen1 : (r :: rest2).length ≤ k := by simp at hlen ⊢; omega
        have hlen2 : rest2.length ≤ k := by simp at hlen; omega
        by_cases hch : ch = '$'
        · subst hch
          by_cases hrn : r = 'n'
          · subst hrn
            have hcnt2 : node.names.length < (1 + cntEsc 'n' rest2) + ni := by
              simpa [cntEsc] using hcnt
            cases hg : node.names[ni]? with
            | none => simp [processFmt, substitutePath, hg, Res.isErr]
            | some nm =>
              obtain ⟨hlt, -⟩ := List.getElem?_eq_some.mp hg
              rcases hap : al.alias_path nm with ⟨tok, al2⟩
              have hrec := ih rest2 hlen2 (ni + 1) vi ci (acc ++ tok) al2 (by omega) (by omega)
              simpa [processFmt, substitutePath, hg, hap] using hrec
          · by_cases hrv : r = 'v'
            · subst hrv
              have hcnt2 : node.names.length < cntEsc 'n' rest2 + ni := by
                simpa [cntEsc, hrn] using hcnt
              cases hg : node.values[vi]? with
              | none => simp [processFmt, substituteValue, hg, hrn, Res.isErr]
              | some v =>
                rcases hap : al.alias_value v with ⟨tok, al2⟩
                have hrec := ih rest2 hlen2 ni (vi + 1) ci (acc ++ tok) al2 hni hcnt2
                simpa [processFmt, substituteValue, hg, hap, hrn] using hrec
            · by_cases hrc : r = 'c'
              · subst hrc
                have hcnt2 : node.names.length < cntEsc 'n' rest2 + ni := by
                  simpa [cntEsc, hrn, hrv] using hcnt
                cases hg : node.children[ci]? with
                | none => simp [processFmt, hg, hrn, hrv, Res.isErr]
                | some child =>
                  have hmem : child ∈ node.children := List.get?_mem (by simpa using hg)
                  rcases hsub child al hmem with hok | herr
                  · rcases (Res.isOk_iff _).mp hok with ⟨⟨tok, al2⟩, hres⟩
                    have hrec := ih rest2 hlen2 ni vi (ci + 1) (acc ++ tok) al2 hni hcnt2
                    simpa [processFmt, hg, hres, hrn, hrv] using hrec
                  · rcases (Res.isErr_iff _).mp herr with ⟨e, hres⟩
                    simp [processFmt, hg, hres, hrn, hrv, Res.isErr]
              · simp [processFmt, hrn, hrv, hrc, Res.isErr]
        · have hcnt2 : node.names.length < cntEsc 'n' (r :: rest2) + ni := by
            simpa [cntEsc, hch] using hcnt
          have hrec := ih (r :: rest2) hlen1 ni vi ci (acc.push ch) al hni hcnt2
          simpa [processFmt, hch] using hrec

theorem processFmt_values_out_of_range
    (sub : ExpressionNode → AliasList → Res (String × AliasList))
    (node : ExpressionNode)
    (hsub : ∀ (c : ExpressionNode) (al : AliasList), c ∈ node.children →
      (sub c al).isOk ∨ (sub c al).isErr) :
    ∀ (rest : List Char) (ni vi ci : Nat) (acc : String) (al : AliasList),
      vi ≤ node.values.length → node.values.length < cntEsc 'v' rest + vi →
      (processFmt sub node rest ni vi ci acc al).isErr := by
  suffices H : ∀ (k : Nat) (rest : List Char), rest.length ≤ k →
      ∀ (ni vi ci : Nat) (acc : String) (al : AliasList),
        vi ≤ node.values.length → node.values.length < cntEsc 'v' rest + vi →
        (processFmt sub node rest ni vi ci acc al).isErr by
    intro rest
    exact H rest.length rest (Nat.le_refl _)
  intro k
  induction k with
  | zero =>
    intro rest hlen ni vi ci acc al hvi hcnt
    have hnil : rest = [] := List.eq_nil_of_length_eq_zero (Nat.le_zero.mp hlen)
    subst hnil
    simp [cntEsc] at hcnt
    omega
  | succ k ih =>
    intro rest hlen ni vi ci acc al hvi hcnt
    cases rest with
    | nil =>
      simp [cntEsc] at hcnt
      omega
    | cons ch rest1 =>
      cases rest1 with
      | nil =>
        by_cases hch : ch = '$'
        · simp [processFmt, hch, Res.isErr]
        · simp [cntEsc, hch] at hcnt
          omega
      | cons r rest2 =>
        have hlen1 : (r :: rest2).length ≤ k := by simp at hlen ⊢; omega
        have hlen2 : rest2.length ≤ k := by simp at hlen; omega
        by_cases hch : ch = '$'
        · subst hch
          by_cases hrn : r = 'n'
          · subst hrn
            have hcnt2 : node.values.length < cntEsc 'v' rest2 + vi := by
              simpa [cntEsc] using hcnt
            cases hg : node.names[ni]? with
            | none => simp [processFmt, substitutePath, hg, Res.isErr]
            | some nm =>
              rcases hap : al.alias_path nm with ⟨tok, al2⟩
              have hrec := ih rest2 hlen2 (ni + 1) vi ci (acc ++ tok) al2 hvi hcnt2
              simpa [processFmt, substitutePath, hg, hap] using hrec
          · by_cases hrv : r = 'v'
            · subst hrv
              have hcnt2 : node.values.length < (1 + cntEsc 'v' rest2) + vi := by
                simpa [cntEsc, hrn] using hcnt
              cases hg : node.values[vi]? with
              | none => simp [processFmt, substituteValue, hg, hrn, Res.isErr]
              | some v =>
                obtain ⟨hlt, -⟩ := List.getElem?_eq_some.mp hg
                rcases hap : al.alias_value v with ⟨tok, al2⟩
                have hrec := ih rest2 hlen2 ni (vi + 1) ci (acc ++ tok) al2 (by omega) (by omega)
                simpa [processFmt, substituteValue, hg, hap, hrn] using hrec
            · by_cases hrc : r = 'c'
              · subst hrc
                have hcnt2 : node.values.length < cntEsc 'v' rest2 + vi := by
                  simpa [cntEsc, hrn, hrv] using hcnt
                cases hg : node.children[ci]? with
                | none => simp [processFmt, hg, hrn, hrv, Res.isErr]
                | some child =>
                  have hmem : child ∈ node.children := List.get?_mem (by simpa using hg)
                  rcases hsub child al hmem with hok | herr
                  · rcases (Res.isOk_iff _).mp hok with ⟨⟨tok, al2⟩, hres⟩
                    have hrec := ih rest2 hlen2 ni vi (ci + 1) (acc ++ tok) al2 hvi hcnt2
                    simpa [processFmt, hg, hres, hrn, hrv] using hrec
                  · rcases (Res.isErr_iff _).mp herr with ⟨e, hres⟩
                    simp [processFmt, hg, hres, hrn, hrv, Res.isErr]
              · simp [processFmt, hrn, hrv, hrc, Res.isErr]
        · have hcnt2 : node.values.length < cntEsc 'v' (r :: rest2) + vi := by
            simpa [cntEsc, hch] using hcnt
          have hrec := ih (r :: rest2) hlen1 ni vi ci (acc.push ch) al hvi hcnt2
          simpa [processFmt, hch] using hrec

theorem processFmt_children_out_of_range
    (sub : ExpressionNode → AliasList → Res (String × AliasList))
    (node : ExpressionNode)
    (hsub : ∀ (c : ExpressionNode) (al : AliasList), c ∈ node.children →
      (sub c al).isOk ∨ (sub c al).isErr) :
    ∀ (rest : List Char) (ni vi ci : Nat) (acc : String) (al : AliasList),
      ci ≤ node.children.length → node.children.length < cntEsc 'c' rest + ci →
      (processFmt sub node rest ni vi ci acc al).isErr := by
  suffices H : ∀ (k : Nat) (rest : List Char), rest.length ≤ k →
      ∀ (ni vi ci : Nat) (acc : String) (al : AliasList),
        ci ≤ node.children.length → node.children.length < cntEsc 'c' rest + ci →
        (processFmt sub node rest ni vi ci acc al).isErr by
    intro rest
    exact H rest.length rest (Nat.le_refl _)
  intro k
  induction k with
  | zero =>
    intro rest hlen ni vi ci acc al hci hcnt
    have hnil : rest = [] := List.eq_nil_of_length_eq_zero (Nat.le_zero.mp hlen)
    subst hnil
    simp [cntEsc] at hcnt
    omega
  | succ k ih =>
    intro rest hlen ni vi ci acc al hci hcnt
    cases rest with
    | nil =>
      simp [cntEsc] at hcnt
      omega
    | cons ch rest1 =>
      cases rest1 with
      | nil =>
        by_cases hch : ch = '$'
        · simp [processFmt, hch, Res.isErr]
        · simp [cntEsc, hch] at hcnt
          omega
      | cons r rest2 =>
        have hlen1 : (r :: rest2).length ≤ k := by simp at hlen ⊢; omega
        have hlen2 : rest2.length ≤ k := by simp at hlen; omega
        by_cases hch : ch = '$'
        · subst hch
          by_cases hrn : r = 'n'
          · subst hrn
            have hcnt2 : node.children.length < cntEsc 'c' rest2 + ci := by
              simpa [cntEsc] using hcnt
            cases hg : node.names[ni]? with
            | none => simp [processFmt, substitutePath, hg, Res.isErr]
            | some nm =>
              rcases hap : al.alias_path nm with ⟨tok, al2⟩
              have hrec := ih rest2 hlen2 (ni + 1) vi ci (acc ++ tok) al2 hci hcnt2
              simpa [processFmt, substitutePath, hg, hap] using hrec
          · by_cases hrv : r = 'v'
            · subst hrv
              have hcnt2 : node.children.length < cntEsc 'c' rest2 + ci := by
                simpa [cntEsc, hrn] using hcnt
              cases hg : node.values[vi]? with
              | none => simp [processFmt, substituteValue, hg, hrn, Res.isErr]
              | some v =>
                rcases hap : al.alias_value v with ⟨tok, al2⟩
                have hrec := ih rest2 hlen2 ni (vi + 1) ci (acc ++ tok) al2 hci hcnt2
                simpa [processFmt, substituteValue, hg, hap, hrn] using hrec
            · by_cases hrc : r = 'c'
              · subst hrc
                have hcnt2 : node.children.length < (1 + cntEsc 'c' rest2) + ci := by
                  simpa [cntEsc, hrn, hrv] using hcnt
                cases hg : node.children[ci]? with
                | none => simp [processFmt, hg, hrn, hrv, Res.isErr]
                | some child =>
                  obtain ⟨hlt, -⟩ := List.getElem?_eq_some.mp hg
                  have hmem : child ∈ node.children := List.get?_mem (by simpa using hg)
                  rcases hsub child al hmem with hok | herr
                  · rcases (Res.isOk_iff _).mp hok with ⟨⟨tok, al2⟩, hres⟩
                    have hrec := ih rest2 hlen2 ni vi (ci + 1) (acc ++ tok) al2 (by omega)
                      (by omega)
                    simpa [processFmt, hg, hres, hrn, hrv] using hrec
                  · rcases (Res.isErr_iff _).mp herr with ⟨e, hres⟩
                    simp [processFmt, hg, hres, hrn, hrv, Res.isErr]
              · simp [processFmt, hrn, hrv, hrc, Res.isErr]
        · have hcnt2 : node.children.length < cntEsc 'c' (r :: rest2) + ci := by
            simpa [cntEsc, hch] using hcnt
          have hrec := ih (r :: rest2) hlen1 ni vi ci (acc.push ch) al hci hcnt2
          simpa [processFmt, hch] using hrec

theorem badFmt_of_getLast_dollar :
    ∀ l : List Char, l.getLast? = some '$' → badFmt l = true := by
  suffices H : ∀ (k : Nat) (l : List Char), l.length ≤ k →
      l.getLast? = some '$' → badFmt l = true by
    intro l
    exact H l.length l (Nat.le_refl _)
  intro k
  induction k with
  | zero =>
    intro l hlen hlast
    have hnil : l = [] := List.eq_nil_of_length_eq_zero (Nat.le_zero.mp hlen)
    subst hnil
    simp at hlast
  | succ k ih =>
    intro l hlen hlast
    cases l with
    | nil => simp at hlast
    | cons ch rest1 =>
      cases rest1 with
      | nil =>
        simp at hlast
        subst hlast
        simp [badFmt]
      | cons r rest2 =>
        have hlast2 : (r :: rest2).getLast? = some '$' := by
          simpa [List.getLast?_cons_cons] using hlast
        by_cases hch : ch = '$'
        · subst hch
          by_cases hval : r = 'n' ∨ r = 'v' ∨ r = 'c'
          · cases rest2 with
            | nil =>
              simp at hlast2
              subst hlast2
              rcases hval with h | h | h <;> simp at h
            | cons r2 rest3 =>
              have hlen3 : (r2 :: rest3).length ≤ k := by simp at hlen ⊢; omega
              have := ih (r2 :: rest3) hlen3
                (by simpa [List.getLast?_cons_cons] using hlast2)
              simpa [badFmt, hval] using this
          · simp [badFmt, hval]
        · have hlen1 : (r :: rest2).length ≤ k := by simp at hlen ⊢; omega
          have := ih (r :: rest2) hlen1 hlast2
          simpa [badFmt, hch] using this

theorem badFmt_of_invalid_pair :
    ∀ (l : List Char) (i : Nat) (x : Char), l[i]? = some '$' → l[i + 1]? = some x →
      ¬(x = 'n' ∨ x = 'v' ∨ x = 'c') → badFmt l = true := by
  suffices H : ∀ (k : Nat) (l : List Char), l.length ≤ k → ∀ (i : Nat) (x : Char),
      l[i]? = some '$' → l[i + 1]? = some x → ¬(x = 'n' ∨ x = 'v' ∨ x = 'c') →
      badFmt l = true by
    intro l
    exact H l.length l (Nat.le_refl _)
  intro k
  induction k with
  | zero =>
    intro l hlen i x h1 h2 hx
    have hnil : l = [] := List.eq_nil_of_length_eq_zero (Nat.le_zero.mp hlen)
    subst hnil
    simp at h1
  | succ k ih =>
    intro l hlen i x h1 h2 hx
    cases l with
    | nil => simp at h1
    | cons ch rest1 =>
      cases i with
      | zero =>
        simp at h1
        subst h1
        cases rest1 with
        | nil => simp at h2
        | cons r rest2 =>
          simp at h2
          subst h2
          simp [badFmt, hx]
      | succ j =>
        have h1r : rest1[j]? = some '$' := by simpa using h1
        have h2r : rest1[j + 1]? = some x := by simpa using h2
        cases rest1 with
        | nil => simp at h1r
        | cons r rest2 =>
          by_cases hch : ch = '$'
          · subst hch
            by_cases hval : r = 'n' ∨ r = 'v' ∨ r = 'c'
            · cases j with
              | zero =>
                simp at h1r
                subst h1r
                rcases hval with h | h | h <;> simp at h
              | succ j2 =>
                have hlen2 : rest2.length ≤ k := by simp at hlen; omega
                have := ih rest2 hlen2 j2 x (by simpa using h1r) (by simpa using h2r) hx
                simpa [badFmt, hval] using this
            · simp [badFmt, hval]
          · have hlen1 : (r :: rest2).length ≤ k := by simp at hlen ⊢; omega
            have := ih (r :: rest2) hlen1 j x h1r h2r hx
            simpa [badFmt, hch] using this


theorem utf8Len_append (a b : List Char) : utf8Len (a ++ b) = utf8Len a + utf8Len b := by
  induction a with
  | nil => simp [utf8Len]
  | cons c cs ih =>
    simp [utf8Len, ih]
    omega

theorem utf8Len_eq_length (l : List Char) (h : asciiStr l) : utf8Len l = l.length := by
  induction l with
  | nil => rfl
  | cons c cs ih =>
    have hc : c.utf8Size = 1 := h c (List.mem_cons_self c cs)
    have hcs : asciiStr cs := fun x hx => h x (List.mem_cons_of_mem c hx)
    simp [utf8Len, hc, ih hcs]
    omega

theorem splitAtByte_append (a b : List Char) (h : asciiStr a) :
    splitAtByte a.length (a ++ b) = some (a, b) := by
  induction a with
  | nil => simp [splitAtByte]
  | cons c cs ih =>
    have hc : c.utf8Size = 1 := h c (List.mem_cons_self c cs)
    have hcs : asciiStr cs := fun x hx => h x (List.mem_cons_of_mem c hx)
    simp [splitAtByte, hc, ih hcs]

theorem digitChar_utf8Size (n : Nat) : (Nat.digitChar n).utf8Size = 1 := by
  rcases Nat.lt_or_ge n 16 with h | h
  · interval_cases n <;> decide
  · have h0 : n ≠ 0 := by omega
    have h1 : n ≠ 1 := by omega
    have h2 : n ≠ 2 := by omega
    have h3 : n ≠ 3 := by omega
    have h4 : n ≠ 4 := by omega
    have h5 : n ≠ 5 := by omega
    have h6 : n ≠ 6 := by omega
    have h7 : n ≠ 7 := by omega
    have h8 : n ≠ 8 := by omega
    have h9 : n ≠ 9 := by omega
    have h10 : n ≠ 10 := by omega
    have h11 : n ≠ 11 := by omega
    have h12 : n ≠ 12 := by omega
    have h13 : n ≠ 13 := by omega
    have h14 : n ≠ 14 := by omega
    have h15 : n ≠ 15 := by omega
    simp [Nat.digitChar, h0, h1, h2, h3, h4, h5, h6, h7, h8, h9, h10, h11, h12, h13, h14, h15]
    decide

theorem toDigitsCore_ascii (b : Nat) :
    ∀ (fuel n : Nat) (ds : List Char), (∀ c ∈ ds, c.utf8Size = 1) →
      ∀ c ∈ Nat.toDigitsCore b fuel n ds, c.utf8Size = 1 := by
  intro fuel
  induction fuel with
  | zero =>
    intro n ds hds c hc
    rw [Nat.toDigitsCore] at hc
    exact hds c hc
  | succ f ih =>
    intro n ds hds c hc
    rw [Nat.toDigitsCore] at hc
    split at hc
    · rcases List.mem_cons.mp hc with rfl | h2
      · exact digitChar_utf8Size _
      · exact hds c h2
    · refine ih (n / b) (Nat.digitChar (n % b) :: ds) ?_ c hc
      intro x hx
      rcases List.mem_cons.mp hx with rfl | h2
      · exact digitChar_utf8Size _
      · exact hds x h2

theorem toString_nat_ascii (n : Nat) : asciiStr (toString n).data := by
  intro c hc
  have hmem : c ∈ Nat.toDigits 10 n := by
    simpa [toString, Nat.repr, List.asString] using hc
  exact toDigitsCore_ascii 10 (n + 1) n [] (by simp) c hmem

theorem token_ascii_hash (n : Nat) : asciiStr ("#" ++ toString n).data := by
  intro c hc
  rw [String.data_append] at hc
  rcases List.mem_append.mp hc with h1 | h2
  · simp at h1
    subst h1
    decide
  · exact toString_nat_ascii n c h2

theorem token_ascii_colon (n : Nat) : asciiStr (":" ++ toString n).data := by
  intro c hc
  rw [String.data_append] at hc
  rcases List.mem_append.mp hc with h1 | h2
  · simp at h1
    subst h1
    decide
  · exact toString_nat_ascii n c h2

theorem splitDot_chars : ∀ (l : List Char), ∀ w ∈ splitDot l, ∀ c ∈ w, c ∈ l := by
  intro l
  induction l with
  | nil =>
    intro w hw c hc
    simp [splitDot] at hw
    subst hw
    simp at hc
  | cons x xs ih =>
    intro w hw c hc
    by_cases hx : x = '.'
    · simp [splitDot, hx] at hw
      rcases hw with rfl | hw
      · simp at hc
      · exact List.mem_cons_of_mem x (ih w hw c hc)
    · rw [splitDot] at hw
      simp only [if_neg hx] at hw
      cases hs : splitDot xs with
      | nil =>
        rw [hs] at hw
        simp at hw
        subst hw
        simp at hc
        subst hc
        exact List.mem_cons_self _ _
      | cons w0 ws0 =>
        rw [hs] at hw
        rcases List.mem_cons.mp hw with rfl | hw2
        · rcases List.mem_cons.mp hc with rfl | hc2
          · exact List.mem_cons_self c xs
          · exact List.mem_cons_of_mem x (ih w0 (hs ▸ List.mem_cons_self w0 ws0) c hc2)
        · exact List.mem_cons_of_mem x
            (ih w (hs ▸ List.mem_cons_of_mem w0 hw2) c hc)

theorem nameWordsLoop_cons (w : List Char) (ws : List (List Char))
    (hA : ∀ c ∈ w, c.utf8Size = 1) :
    nameWordsLoop (w :: ws)
      = match procWord w with
        | none => .err unsetName
        | some p =>
          match nameWordsLoop ws with
          | .ok (ns, fs) => .ok (String.mk p.1 :: ns, ("$n" ++ String.mk p.2) :: fs)
          | .err e => .err e
          | .panicked m => .panicked m := by
  by_cases h1 : w.isEmpty
  · simp [nameWordsLoop, procWord, h1]
  · have hne : w ≠ [] := by simpa [List.isEmpty_iff] using h1
    have hlen : utf8Len w = w.length := utf8Len_eq_length w hA
    have hget : w.get? (utf8Len w - 1) = w.getLast? := by
      rw [hlen, List.get?_eq_getElem?, List.getLast?_eq_getElem?]
    cases hw : w.getLast? with
    | none => exact absurd (List.getLast?_eq_none_iff.mp hw) hne
    | some lastc =>
      have hget2 : w[utf8Len w - 1]? = some lastc := by
        rw [hlen, ← List.getLast?_eq_getElem?]
        exact hw
      by_cases h2 : (if lastc = ']' then
          match findBracket w with
          | some j => (w.take j, w.drop j)
          | none => (w, ([] : List Char))
        else (w, [])).1 = []
      · simp [nameWordsLoop, procWord, h1, hget2, hw, h2]
      · simp [nameWordsLoop, procWord, h1, hget2, hw, h2]

theorem nameWordsLoop_eq_procWords (words : List (List Char))
    (hA : ∀ w ∈ words, ∀ c ∈ w, c.utf8Size = 1) :
    nameWordsLoop words
      = match procWords words with
        | none => .err unsetName
        | some ps =>
          .ok (ps.map (fun p => String.mk p.1), ps.map (fun p => "$n" ++ String.mk p.2)) := by
  induction words with
  | nil => rfl
  | cons w ws ih =>
    rw [nameWordsLoop_cons w ws (hA w (List.mem_cons_self w ws)),
      ih (fun x hx c hc => hA x (List.mem_cons_of_mem w hx) c hc)]
    cases hw : procWord w with
    | none => simp [procWords, hw]
    | some p =>
      cases hws : procWords ws with
      | none => simp [procWords, hw, hws]
      | some ps => simp [procWords, hw, hws]

/-- Claim C6 (counterexample): the claim quantifies over every name string,
but a segment containing a multi-byte character makes build_operand panic:
the source tests the last character with chars().nth(word.len() - 1).unwrap()
where len() is the byte length and nth counts chars, so for "héllo" (6
bytes, 5 chars) the nth returns None and the unwrap aborts — neither the
claimed success nor the claimed UnsetParameter error. -/
theorem C6_counterexample :
    name_build_operand "héllo" = .panicked "called Option::unwrap on a None value" ∧
    ¬ (name_build_operand "héllo").isOk ∧
    ¬ (name_build_operand "héllo").isErr :=
  ⟨rfl, fun h => h, fun h => h⟩

/-- Claim C6 (amended): for every name string made of single-byte characters
only, build_operand splits the string on dots; a segment ending in a closing
bracket has its bracketed suffix (from the first opening bracket) split off
verbatim and its remaining prefix validated non-empty; each validated prefix
becomes one names entry and one "$n<suffix>" fragment, the fragments joined
with dots; an empty overall string, an empty segment, or an empty prefix
before a bracket all fail with UnsetParameter, function "BuildOperand",
subject "NameBuilder".  (A segment containing a multi-byte character instead
panics at the byte-length/char-index unwrap.) -/
theorem C6_name_build_operand_spec :
    (∀ nm : String, (∀ c ∈ nm.data, c.utf8Size = 1) →
      name_build_operand nm
        = if nm.isEmpty then .err unsetName
          else
            match procWords (splitDot nm.data) with
            | none => .err unsetName
            | some ps =>
              .ok (.mk (ps.map fun p => String.mk p.1) [] []
                (joinDot (ps.map fun p => "$n" ++ String.mk p.2)))) ∧
    name_build_operand "" = .err unsetName ∧
    name_build_operand "foo..bar" = .err unsetName ∧
    name_build_operand "[foo]" = .err unsetName ∧
    unsetName = .typed (.UnsetParameterError "BuildOperand" "NameBuilder") ∧
    name_build_operand "foo.bar[0].baz"
      = .ok (.from_names ["foo", "bar", "baz"] "$n.$n[0].$n") := by
  refine ⟨?_, rfl, rfl, rfl, rfl, rfl⟩
  intro nm hA
  by_cases h : nm.isEmpty
  · simp [name_build_operand, h]
  · have hwords : ∀ w ∈ splitDot nm.data, ∀ c ∈ w, c.utf8Size = 1 :=
      fun w hw c hc => hA c (splitDot_chars nm.data w hw c hc)
    rw [name_build_operand, if_neg h, if_neg h, nameWordsLoop_eq_procWords _ hwords]
    cases hp : procWords (splitDot nm.data) with
    | none => rfl
    | some ps => rfl

theorem C6_witness :
    (∀ c ∈ "foo.bar[0].baz".data, c.utf8Size = 1) ∧
    name_build_operand "foo.bar[0].baz"
      = if ("foo.bar[0].baz" : String).isEmpty then .err unsetName
        else
          match procWords (splitDot "foo.bar[0].baz".data) with
          | none => .err unsetName
          | some ps =>
            .ok (.mk (ps.map fun p => String.mk p.1) [] []
              (joinDot (ps.map fun p => "$n" ++ String.mk p.2))) :=
  ⟨by decide, C6_name_build_operand_spec.1 "foo.bar[0].baz" (by decide)⟩

theorem asciiStr_append {a b : List Char} (ha : asciiStr a) (hb : asciiStr b) :
    asciiStr (a ++ b) := by
  intro c hc
  rcases List.mem_append.mp hc with h | h
  · exact ha c h
  · exact hb c h

theorem asciiFmt_parts {ns : List String} {vs : List AttributeValue}
    {cs : List ExpressionNode} {f : String}
    (h : asciiFmt (.mk ns vs cs f) = true) :
    asciiStr f.data ∧ asciiFmtL cs = true := by
  simp only [asciiFmt, Bool.and_eq_true] at h
  rcases h with ⟨h1, h2⟩
  refine ⟨?_, h2⟩
  intro c hc
  have := List.all_eq_true.mp h1 c hc
  simpa using this

theorem asciiFmtL_mem {c : ExpressionNode} :
    ∀ {cs : List ExpressionNode}, asciiFmtL cs = true → c ∈ cs → asciiFmt c = true := by
  intro cs
  induction cs with
  | nil =>
    intro _ hc
    simp at hc
  | cons x xs ih =>
    intro h hc
    simp only [asciiFmtL, Bool.and_eq_true] at h
    rcases h with ⟨h1, h2⟩
    rcases List.mem_cons.mp hc with rfl | hc2
    · exact h1
    · exact ih h2 hc2

theorem alias_path_token_ascii (al : AliasList) (nm : String) :
    asciiStr (al.alias_path nm).1.data := by
  rw [AliasList.alias_path]
  cases findFirst nm al.names with
  | some idx => exact token_ascii_hash idx
  | none => exact token_ascii_hash al.names.length

theorem substitutePath_token_ascii (node : ExpressionNode) (i : Nat) (al : AliasList)
    (tok : String) (al2 : AliasList) (h : substitutePath node i al = .ok (tok, al2)) :
    asciiStr tok.data := by
  rw [substitutePath] at h
  cases hg : node.names.get? i with
  | none =>
    rw [hg] at h
    cases h
  | some nm =>
    rw [hg] at h
    have h2 : Res.ok (α := String × AliasList) (al.alias_path nm) = .ok (tok, al2) := h
    have h3 : al.alias_path nm = (tok, al2) := by injection h2
    have h4 := alias_path_token_ascii al nm
    rw [h3] at h4
    exact h4

theorem substituteValue_token_ascii (node : ExpressionNode) (i : Nat) (al : AliasList)
    (tok : String) (al2 : AliasList) (h : substituteValue node i al = .ok (tok, al2)) :
    asciiStr tok.data := by
  rw [substituteValue] at h
  cases hg : node.values.get? i with
  | none =>
    rw [hg] at h
    cases h
  | some v =>
    rw [hg] at h
    have h2 : Res.ok (α := String × AliasList) (al.alias_value v) = .ok (tok, al2) := h
    have h3 : al.alias_value v = (tok, al2) := by injection h2
    have h4 : asciiStr (al.alias_value v).1.data := token_ascii_colon al.values.length
    rw [h3] at h4
    exact h4

theorem processFmt_congr (sub1 sub2 : ExpressionNode → AliasList → Res (String × AliasList))
    (node : ExpressionNode)
    (h : ∀ (c : ExpressionNode) (al : AliasList), c ∈ node.children → sub1 c al = sub2 c al) :
    ∀ (rest : List Char) (ni vi ci : Nat) (acc : String) (al : AliasList),
      processFmt sub1 node rest ni vi ci acc al = processFmt sub2 node rest ni vi ci acc al := by
  suffices H : ∀ (k : Nat) (rest : List Char), rest.length ≤ k →
      ∀ (ni vi ci : Nat) (acc : String) (al : AliasList),
        processFmt sub1 node rest ni vi ci acc al = processFmt sub2 node rest ni vi ci acc al by
    intro rest
    exact H rest.length rest (Nat.le_refl _)
  intro k
  induction k with
  | zero =>
    intro rest hlen ni vi ci acc al
    have hnil : rest = [] := List.eq_nil_of_length_eq_zero (Nat.le_zero.mp hlen)
    subst hnil
    rfl
  | succ k ih =>
    intro rest hlen ni vi ci acc al
    cases rest with
    | nil => rfl
    | cons ch rest1 =>
      cases rest1 with
      | nil =>
        by_cases hch : ch = '$' <;> simp [processFmt, hch]
      | cons r rest2 =>
        have hlen1 : (r :: rest2).length ≤ k := by simp at hlen ⊢; omega
        have hlen2 : rest2.length ≤ k := by simp at hlen; omega
        by_cases hch : ch = '$'
        · subst hch
          by_cases hrn : r = 'n'
          · subst hrn
            cases hg : node.names[ni]? with
            | none => simp [processFmt, substitutePath, hg]
            | some nm =>
              rcases hap : al.alias_path nm with ⟨tok, al2⟩
              have hrec := ih rest2 hlen2 (ni + 1) vi ci (acc ++ tok) al2
              simp [processFmt, substitutePath, hg, hap, hrec]
          · by_cases hrv : r = 'v'
            · subst hrv
              cases hg : node.values[vi]? with
              | none => simp [processFmt, substituteValue, hg, hrn]
              | some v =>
                rcases hap : al.alias_value v with ⟨tok, al2⟩
                have hrec := ih rest2 hlen2 ni (vi + 1) ci (acc ++ tok) al2
                simp [processFmt, substituteValue, hg, hap, hrn, hrec]
            · by_cases hrc : r = 'c'
              · subst hrc
                cases hg : node.children[ci]? with
                | none => simp [processFmt, hg, hrn, hrv]
                | some child =>
                  have hmem : child ∈ node.children := List.get?_mem (by simpa using hg)
                  have hsub12 : sub1 child al = sub2 child al := h child al hmem
                  cases hres : sub2 child al with
                  | ok p =>
                    rcases p with ⟨tok, al2⟩
                    have hrec := ih rest2 hlen2 ni vi (ci + 1) (acc ++ tok) al2
                    simp [processFmt, hg, hrn, hrv, hsub12, hres, hrec]
                  | err e => simp [processFmt, hg, hrn, hrv, hsub12, hres]
                  | panicked m => simp [processFmt, hg, hrn, hrv, hsub12, hres]
              · simp [processFmt, hrn, hrv, hrc]
        · have hrec := ih (r :: rest2) hlen1 ni vi ci (acc.push ch) al
          simp [processFmt, hch, hrec]

theorem processFmt_output_ascii
    (sub : ExpressionNode → AliasList → Res (String × AliasList))
    (node : ExpressionNode)
    (hsubA : ∀ (c : ExpressionNode) (al : AliasList) (s : String) (al2 : AliasList),
      c ∈ node.children → sub c al = .ok (s, al2) → asciiStr s.data) :
    ∀ (rest : List Char) (ni vi ci : Nat) (acc : String) (al : AliasList)
      (out : String) (al2 : AliasList),
      asciiStr rest → asciiStr acc.data →
      processFmt sub node rest ni vi ci acc al = .ok (out, al2) → asciiStr out.data := by
  suffices H : ∀ (k : Nat) (rest : List Char), rest.length ≤ k →
      ∀ (ni vi ci : Nat) (acc : String) (al : AliasList) (out : String) (al2 : AliasList),
        asciiStr rest → asciiStr acc.data →
        processFmt sub node rest ni vi ci acc al = .ok (out, al2) → asciiStr out.data by
    intro rest
    exact H rest.length rest (Nat.le_refl _)
  intro k
  induction k with
  | zero =>
    intro rest hlen ni vi ci acc al out al2 hrest hacc hok
    have hnil : rest = [] := List.eq_nil_of_length_eq_zero (Nat.le_zero.mp hlen)
    subst hnil
    have h2 : Res.ok (α := String × AliasList) (acc, al) = .ok (out, al2) := hok
    have h3 : (acc, al) = (out, al2) := by injection h2
    have h4 : acc = out := congrArg Prod.fst h3
    rw [← h4]
    exact hacc
  | succ k ih =>
    intro rest hlen ni vi ci acc al out al2 hrest hacc hok
    cases rest with
    | nil =>
      have h2 : Res.ok (α := String × AliasList) (acc, al) = .ok (out, al2) := hok
      have h3 : (acc, al) = (out, al2) := by injection h2
      have h4 : acc = out := congrArg Prod.fst h3
      rw [← h4]
      exact hacc
    | cons ch rest1 =>
      have hch1 : ch.utf8Size = 1 := hrest ch (List.mem_cons_self _ _)
      cases rest1 with
      | nil =>
        by_cases hch : ch = '$'
        · rw [processFmt, if_pos hch] at hok
          cases hok
        · rw [processFmt, if_neg hch] at hok
          have h2 : Res.ok (α := String × AliasList) (acc.push ch, al) = .ok (out, al2) := hok
          have h3 : (acc.push ch, al) = (out, al2) := by injection h2
          have h4 : acc.push ch = out := congrArg Prod.fst h3
          rw [← h4]
          intro c hc
          rcases (by simpa [String.push] using hc : c ∈ acc.data ∨ c = ch) with hcl | hcr
          · exact hacc c hcl
          · subst hcr
            exact hch1
      | cons r rest2 =>
        have hlen1 : (r :: rest2).length ≤ k := by simp at hlen ⊢; omega
        have hlen2 : rest2.length ≤ k := by simp at hlen; omega
        have hrest1 : asciiStr (r :: rest2) := fun c hc => hrest c (List.mem_cons_of_mem _ hc)
        have hrest2 : asciiStr rest2 := fun c hc => hrest1 c (List.mem_cons_of_mem _ hc)
        by_cases hch : ch = '$'
        · subst hch
          by_cases hrn : r = 'n'
          · subst hrn
            cases hsp : substitutePath node ni al with
            | ok p =>
              rcases p with ⟨tok, al3⟩
              have htok : asciiStr tok.data := substitutePath_token_ascii node ni al tok al3 hsp
              rw [processFmt, if_pos rfl] at hok
              simp only [hsp] at hok
              exact ih rest2 hlen2 (ni + 1) vi ci (acc ++ tok) al3 out al2 hrest2
                (by simpa [String.data_append] using asciiStr_append hacc htok) hok
            | err e =>
              rw [processFmt, if_pos rfl] at hok
              simp only [hsp] at hok
              cases hok
            | panicked m =>
              rw [processFmt, if_pos rfl] at hok
              simp only [hsp] at hok
              cases hok
          · by_cases hrv : r = 'v'
            · subst hrv
              cases hsp : substituteValue node vi al with
              | ok p =>
                rcases p with ⟨tok, al3⟩
                have htok : asciiStr tok.data := substituteValue_token_ascii node vi al tok al3 hsp
                rw [processFmt, if_pos rfl] at hok
                simp only [if_neg hrn, if_pos rfl, hsp] at hok
                exact ih rest2 hlen2 ni (vi + 1) ci (acc ++ tok) al3 out al2 hrest2
                  (by simpa [String.data_append] using asciiStr_append hacc htok) hok
              | err e =>
                rw [processFmt, if_pos rfl] at hok
                simp only [if_neg hrn, if_pos rfl, hsp] at hok
                cases hok
              | panicked m =>
                rw [processFmt, if_pos rfl] at hok
                simp only [if_neg hrn, if_pos rfl, hsp] at hok
                cases hok
            · by_cases hrc : r = 'c'
              · subst hrc
                cases hg : node.children.get? ci with
                | none =>
                  rw [processFmt, if_pos rfl] at hok
                  simp only [if_neg hrn,
                    if_neg hrv, if_pos rfl, hg] at hok
                  cases hok
                | some child =>
                  have hmem : child ∈ node.children := List.get?_mem hg
                  rw [processFmt, if_pos rfl] at hok
                  simp only [if_neg hrn,
                    if_neg hrv, if_pos rfl, hg] at hok
                  cases hres : sub child al with
                  | ok p =>
                    rcases p with ⟨tok, al3⟩
                    have htok : asciiStr tok.data := hsubA child al tok al3 hmem hres
                    simp only [hres] at hok
                    exact ih rest2 hlen2 ni vi (ci + 1) (acc ++ tok) al3 out al2 hrest2
                      (by simpa [String.data_append] using asciiStr_append hacc htok) hok
                  | err e =>
                    simp only [hres] at hok
                    cases hok
                  | panicked m =>
                    simp only [hres] at hok
                    cases hok
              · rw [processFmt, if_pos rfl] at hok
                simp only [if_neg hrn, if_neg hrv, if_neg hrc] at hok
                cases hok
        · rw [processFmt, if_neg hch] at hok
          exact ih (r :: rest2) hlen1 ni vi ci (acc.push ch) al out al2 hrest1
            (by
              intro c hc
              rcases (by simpa [String.push] using hc : c ∈ acc.data ∨ c = ch) with hcl | hcr
              · exact hacc c hcl
              · subst hcr
                exact hch1) hok

theorem renderD_output_ascii :
    ∀ (d : Nat) (node : ExpressionNode) (al : AliasList) (out : String) (al2 : AliasList),
      asciiFmt node = true → renderD d node al = .ok (out, al2) → asciiStr out.data := by
  intro d
  induction d with
  | zero =>
    intro node al out al2 hA h
    cases h
  | succ d ih =>
    intro node al out al2 hA h
    cases node with
    | mk ns vs cs f =>
      obtain ⟨hf, hcs⟩ := asciiFmt_parts hA
      rw [renderD] at h
      exact processFmt_output_ascii (renderD d) (.mk ns vs cs f)
        (fun c al3 s al4 hc hok => ih c al3 s al4 (asciiFmtL_mem hcs hc) hok)
        f.data 0 0 0 "" al out al2 hf (fun c hc => absurd hc (List.not_mem_nil c)) h

theorem renderLoop_eq_processFmt
    (sub : ExpressionNode → AliasList → Res (String × AliasList))
    (node : ExpressionNode)
    (hsubA : ∀ (c : ExpressionNode) (al : AliasList) (s : String) (al2 : AliasList),
      c ∈ node.children → sub c al = .ok (s, al2) → asciiStr s.data) :
    ∀ (fuel : Nat) (acc rest : List Char) (ni vi ci : Nat) (al : AliasList),
      asciiStr acc → asciiStr rest → rest.length + 1 ≤ fuel →
      renderLoop sub node fuel (acc ++ rest) acc.length ni vi ci al
        = processFmt sub node rest ni vi ci (String.mk acc) al := by
  intro fuel
  induction fuel with
  | zero =>
    intro acc rest ni vi ci al hacc hrest hlen
    omega
  | succ fuel ih =>
    intro acc rest ni vi ci al hacc hrest hlen
    have hlenacc : utf8Len acc = acc.length := utf8Len_eq_length acc hacc
    cases rest with
    | nil =>
      have hidx : ¬ acc.length < utf8Len (acc ++ []) := by
        rw [List.append_nil, hlenacc]
        omega
      rw [renderLoop, if_neg hidx, List.append_nil]
      rfl
    | cons ch rest1 =>
      have hch1 : ch.utf8Size = 1 := hrest ch (List.mem_cons_self _ _)
      have hrest1 : asciiStr rest1 := fun c hc => hrest c (List.mem_cons_of_mem _ hc)
      have hutf : utf8Len (acc ++ ch :: rest1) = acc.length + 1 + utf8Len rest1 := by
        rw [utf8Len_append, hlenacc, utf8Len, hch1]
        omega
      have hidx : acc.length < utf8Len (acc ++ ch :: rest1) := by
        rw [hutf]
        omega
      have hget : (acc ++ ch :: rest1).get? acc.length = some ch := by
        rw [List.get?_eq_getElem?, List.getElem?_append_right (Nat.le_refl _)]
        simp
      by_cases hch : ch = '$'
      · subst hch
        cases rest1 with
        | nil =>
          have hlast : acc.length = utf8Len (acc ++ '$' :: []) - 1 := by
            rw [utf8Len_append, hlenacc]
            have h1 : utf8Len ('$' :: []) = 1 := by decide
            rw [h1]
            omega
          simp only [renderLoop, hget, hidx, if_true]
          rw [if_pos hlast]
          rfl
        | cons r rest2 =>
          have hr1 : r.utf8Size = 1 := hrest1 r (List.mem_cons_self _ _)
          have hrest2 : asciiStr rest2 := fun c hc => hrest1 c (List.mem_cons_of_mem _ hc)
          have hutf2 : utf8Len (acc ++ '$' :: r :: rest2) = acc.length + 2 + utf8Len rest2 := by
            rw [utf8Len_append, hlenacc, utf8Len, utf8Len, hch1, hr1]
            omega
          have hne : ¬(acc.length = utf8Len (acc ++ '$' :: r :: rest2) - 1) := by
            rw [hutf2]
            omega
          have hget2 : (acc ++ '$' :: r :: rest2).get? (acc.length + 1) = some r := by
            rw [List.get?_eq_getElem?,
              List.getElem?_append_right (Nat.le_succ_of_le (Nat.le_refl _))]
            simp
          have hsplit1 : splitAtByte acc.length (acc ++ '$' :: r :: rest2)
              = some (acc, '$' :: r :: rest2) :=
            splitAtByte_append acc ('$' :: r :: rest2) hacc
          have hsplit2 : splitAtByte (acc.length + 2) (acc ++ '$' :: r :: rest2)
              = some (acc ++ ['$', r], rest2) := by
            have hasc : asciiStr (acc ++ ['$', r]) := by
              refine asciiStr_append hacc ?_
              intro c hc
              simp at hc
              rcases hc with rfl | rfl
              · exact hch1
              · exact hr1
            have h2 := splitAtByte_append (acc ++ ['$', r]) rest2 hasc
            have hlen2 : (acc ++ ['$', r]).length = acc.length + 2 := by simp
            have hprep : (acc ++ ['$', r]) ++ rest2 = acc ++ '$' :: r :: rest2 := by simp
            rw [hlen2, hprep] at h2
            exact h2
          have hfuel2 : rest2.length + 1 ≤ fuel := by simp at hlen; omega
          by_cases hrn : r = 'n'
          · subst hrn
            cases hsp : substitutePath node ni al with
            | ok p =>
              rcases p with ⟨tok, al3⟩
              have htok := substitutePath_token_ascii node ni al tok al3 hsp
              have htoklen : utf8Len tok.data = tok.data.length := utf8Len_eq_length _ htok
              have hstep := ih (acc ++ tok.data) rest2 (ni + 1) vi ci al3
                (asciiStr_append hacc htok) hrest2 hfuel2
              have heqs : (acc ++ tok.data) ++ rest2 = acc ++ tok.data ++ rest2 := rfl
              have heqi : (acc ++ tok.data).length = acc.length + utf8Len tok.data := by
                rw [htoklen]
                simp
              rw [heqi] at hstep
              simp only [renderLoop, hget, hidx, if_true, hne, if_false, hget2, hsp,
                hsplit1, hsplit2]
              rw [processFmt, if_pos rfl]
              simp only [hsp, if_true, if_false]
              rw [hstep]
              rfl
            | err e =>
              simp only [renderLoop, hget, hidx, if_true, hne, if_false, hget2, hsp]
              rw [processFmt, if_pos rfl]
              simp only [hsp, if_true, if_false]
            | panicked m =>
              simp only [renderLoop, hget, hidx, if_true, hne, if_false, hget2, hsp]
              rw [processFmt, if_pos rfl]
              simp only [hsp, if_true, if_false]
          · by_cases hrv : r = 'v'
            · subst hrv
              cases hsp : substituteValue node vi al with
              | ok p =>
                rcases p with ⟨tok, al3⟩
                have htok := substituteValue_token_ascii node vi al tok al3 hsp
                have htoklen : utf8Len tok.data = tok.data.length := utf8Len_eq_length _ htok
                have hstep := ih (acc ++ tok.data) rest2 ni (vi + 1) ci al3
                  (asciiStr_append hacc htok) hrest2 hfuel2
                have heqi : (acc ++ tok.data).length = acc.length + utf8Len tok.data := by
                  rw [htoklen]
                  simp
                rw [heqi] at hstep
                simp only [renderLoop, hget, hidx, if_true, hne, if_false, hget2, hrn, hsp,
                  hsplit1, hsplit2]
                rw [processFmt, if_pos rfl]
                simp only [hrn, hsp, if_true, if_false]
                rw [hstep]
                rfl
              | err e =>
                simp only [renderLoop, hget, hidx, if_true, hne, if_false, hget2, hrn, hsp]
                rw [processFmt, if_pos rfl]
                simp only [hrn, hsp, if_true, if_false]
              | panicked m =>
                simp only [renderLoop, hget, hidx, if_true, hne, if_false, hget2, hrn, hsp]
                rw [processFmt, if_pos rfl]
                simp only [hrn, hsp, if_true, if_false]
            · by_cases hrc : r = 'c'
              · subst hrc
                cases hg : node.children.get? ci with
                | none =>
                  simp only [renderLoop, hget, hidx, if_true, hne, if_false, hget2, hrn, hrv, hg]
                  rw [processFmt, if_pos rfl]
                  simp only [hrn, hrv, hg, if_true, if_false]
                | some child =>
                  have hmem : child ∈ node.children := List.get?_mem hg
                  cases hres : sub child al with
                  | ok p =>
                    rcases p with ⟨tok, al3⟩
                    have htok := hsubA child al tok al3 hmem hres
                    have htoklen : utf8Len tok.data = tok.data.length := utf8Len_eq_length _ htok
                    have hstep := ih (acc ++ tok.data) rest2 ni vi (ci + 1) al3
                      (asciiStr_append hacc htok) hrest2 hfuel2
                    have heqi : (acc ++ tok.data).length = acc.length + utf8Len tok.data := by
                      rw [htoklen]
                      simp
                    rw [heqi] at hstep
                    simp only [renderLoop, hget, hidx, if_true, hne, if_false, hget2, hrn, hrv, hg,
                      hres, hsplit1, hsplit2]
                    rw [processFmt, if_pos rfl]
                    simp only [hrn, hrv, hg, hres, if_true, if_false]
                    rw [hstep]
                    rfl
                  | err e =>
                    simp only [renderLoop, hget, hidx, if_true, hne, if_false, hget2, hrn, hrv, hg, hres]
                    rw [processFmt, if_pos rfl]
                    simp only [hrn, hrv, hg, hres, if_true, if_false]
                  | panicked m =>
                    simp only [renderLoop, hget, hidx, if_true, hne, if_false, hget2, hrn, hrv, hg, hres]
                    rw [processFmt, if_pos rfl]
                    simp only [hrn, hrv, hg, hres, if_true, if_false]
              · simp only [renderLoop, hget, hidx, if_true, hne, if_false, hget2, hrn, hrv,
                  hrc]
                rw [processFmt, if_pos rfl]
                simp only [hrn, hrv, hrc, if_true, if_false]
      · have hacc2 : asciiStr (acc ++ [ch]) := by
          refine asciiStr_append hacc ?_
          intro c hc
          simp at hc
          subst hc
          exact hch1
        cases rest1 with
        | nil =>
          have hstep := ih (acc ++ [ch]) [] ni vi ci al hacc2 (fun c hc => absurd hc (List.not_mem_nil c))
            (by simp at hlen ⊢; omega)
          rw [List.append_nil] at hstep
          have heq2 : (acc ++ [ch]).length = acc.length + 1 := by simp
          rw [heq2] at hstep
          simp only [renderLoop, hget, hidx, if_true, hch, if_false]
          rw [processFmt, if_neg hch]
          rw [hstep]
          rfl
        | cons r rest2 =>
          have hstep := ih (acc ++ [ch]) (r :: rest2) ni vi ci al hacc2 hrest1
            (by simp at hlen ⊢; omega)
          have heq1 : (acc ++ [ch]) ++ r :: rest2 = acc ++ ch :: r :: rest2 := by simp
          have heq2 : (acc ++ [ch]).length = acc.length + 1 := by simp
          rw [heq1, heq2] at hstep
          simp only [renderLoop, hget, hidx, if_true, hch, if_false]
          rw [processFmt, if_neg hch]
          rw [hstep]
          rfl

theorem renderDB_eq_renderD :
    ∀ (d : Nat) (node : ExpressionNode) (al : AliasList),
      asciiFmt node = true → renderDB d node al = renderD d node al := by
  intro d
  induction d with
  | zero =>
    intro node al hA
    rfl
  | succ d ih =>
    intro node al hA
    cases node with
    | mk ns vs cs f =>
      obtain ⟨hf, hcs⟩ := asciiFmt_parts hA
      have hsubA : ∀ (c : ExpressionNode) (al2 : AliasList) (s : String) (al3 : AliasList),
          c ∈ (ExpressionNode.mk ns vs cs f).children → renderDB d c al2 = .ok (s, al3) →
          asciiStr s.data := by
        intro c al2 s al3 hc hok
        have hAc : asciiFmt c = true := asciiFmtL_mem hcs hc
        rw [ih c al2 hAc] at hok
        exact renderD_output_ascii d c al2 s al3 hAc hok
      have hlen : f.data.length + 1 ≤ utf8Len f.data + 1 := by
        rw [utf8Len_eq_length f.data hf]
      have hcongr := processFmt_congr (renderDB d) (renderD d) (.mk ns vs cs f)
        (fun c al2 hc => ih c al2 (asciiFmtL_mem hcs hc))
      rw [renderDB, renderD]
      have h1 := renderLoop_eq_processFmt (renderDB d) (.mk ns vs cs f) hsubA
        (utf8Len f.data + 1) [] f.data 0 0 0 al
        (fun c hc => absurd hc (List.not_mem_nil c)) hf hlen
      have h2 : (ExpressionNode.mk ns vs cs f).fmt_expression = f := rfl
      rw [h2]
      have h3 : ([] : List Char) ++ f.data = f.data := by simp
      have h4 : ([] : List Char).length = 0 := rfl
      rw [h3, h4] at h1
      rw [h1, hcongr f.data 0 0 0 (String.mk []) al]

/-- Claim C8 (counterexample): the claim quantifies over every ExpressionNode,
but on a template with a multi-byte character the render panics instead of
returning the claimed error: for the template "é$" (3 bytes, 2 chars) the
trailing '$' is at char index 1 while the byte scan sees idx 1 < len 3 and
idx not equal to len - 1, so the source calls chars().nth(2).unwrap() and
aborts - the "invalid escape character" error channel is never reached even
though the template ends in '$'. -/
theorem C8_counterexample :
    (ExpressionNode.mk [] [] [] "é$").build_expression_string AliasList.empty
      = .panicked "called Option::unwrap on a None value" ∧
    badFmt "é$".data = true ∧
    ¬ ((ExpressionNode.mk [] [] [] "é$").build_expression_string AliasList.empty).isErr ∧
    ¬ ((ExpressionNode.mk [] [] [] "é$").build_expression_string AliasList.empty).isOk :=
  ⟨rfl, by decide, fun h => h, fun h => h⟩

/-- Claim C8 (amended): for every ExpressionNode whose templates (its own and
those of all descendants) contain only single-byte characters,
build_expression_string returns an error when the template contains a
trailing '$' ("invalid escape character") or '$' followed by a character
other than n/v/c ("invalid escape rune <X>"), and when an escape's per-node
counter runs past the corresponding names/values/children list (an "out of
range" error); the three counters are independent and local to one node's
render call, and a fully default node renders to the empty string.  (On a
template with a multi-byte character the byte-indexed scan instead panics at
a chars().nth unwrap or a slice boundary, never reaching these errors.)
badFmt captures the two template-shape errors; cntEsc counts escapes. -/
theorem C8_renderer_error_taxonomy :
    (∀ l : List Char, l.getLast? = some '$' → badFmt l = true) ∧
    (∀ (l : List Char) (i : Nat) (x : Char), l[i]? = some '$' → l[i + 1]? = some x →
      ¬(x = 'n' ∨ x = 'v' ∨ x = 'c') → badFmt l = true) ∧
    (∀ (node : ExpressionNode) (al : AliasList), asciiFmt node = true →
      badFmt node.fmt_expression.data = true →
      (node.build_expression_string al).isErr) ∧
    (∀ (node : ExpressionNode) (al : AliasList), asciiFmt node = true →
      node.names.length < cntEsc 'n' node.fmt_expression.data →
      (node.build_expression_string al).isErr) ∧
    (∀ (node : ExpressionNode) (al : AliasList), asciiFmt node = true →
      node.values.length < cntEsc 'v' node.fmt_expression.data →
      (node.build_expression_string al).isErr) ∧
    (∀ (node : ExpressionNode) (al : AliasList), asciiFmt node = true →
      node.children.length < cntEsc 'c' node.fmt_expression.data →
      (node.build_expression_string al).isErr) ∧
    ((ExpressionNode.from_names ["foo"] "$n.$").build_expression_string AliasList.empty
      = .err (.str "buildexprNode error: invalid escape character")) ∧
    ((ExpressionNode.mk [] [] [] "$!").build_expression_string AliasList.empty
      = .err (.str "buildexprNode error: invalid escape rune !")) ∧
    ((ExpressionNode.from_names ["foo"] "$n.$n").build_expression_string AliasList.empty
      = .err (.str "substitutePath error: exprNode []names out of range")) ∧
    ((ExpressionNode.from_values [] "$v").build_expression_string AliasList.empty
      = .err (.str "substituteValue error: exprNode []values out of range")) ∧
    ((ExpressionNode.mk [] [] [] "$c").build_expression_string AliasList.empty
      = .err (.str "substituteChild error: exprNode []children out of range")) ∧
    ((ExpressionNode.from_children_expression
        [.from_names ["a"] "$n", .from_names ["b"] "$n"] "$c$c").build_expression_string
        AliasList.empty
      = .ok ("#0#1", ⟨["a", "b"], []⟩)) ∧
    (∀ al : AliasList, ExpressionNode.empty.build_expression_string al = .ok ("", al)) := by
  have hsubOf : ∀ (cs : List ExpressionNode) (c : ExpressionNode) (al : AliasList),
      c ∈ cs → (renderD (nodeDepthL cs) c al).isOk ∨ (renderD (nodeDepthL cs) c al).isErr := by
    intro cs c al hc
    exact renderD_ok_or_err (nodeDepthL cs) c (nodeDepth_le_of_mem hc) al
  refine ⟨badFmt_of_getLast_dollar, badFmt_of_invalid_pair, ?_, ?_, ?_, ?_,
    rfl, rfl, rfl, rfl, rfl, rfl, fun al => rfl⟩
  · intro node al hA hbad
    rw [ExpressionNode.build_expression_string, renderDB_eq_renderD (nodeDepth node) node al hA]
    cases node with
    | mk ns vs cs f =>
      exact processFmt_badFmt_err (renderD (nodeDepthL cs)) (.mk ns vs cs f)
        (fun c al2 hc => hsubOf cs c al2 hc) f.data 0 0 0 "" al hbad
  · intro node al hA hcnt
    rw [ExpressionNode.build_expression_string, renderDB_eq_renderD (nodeDepth node) node al hA]
    cases node with
    | mk ns vs cs f =>
      exact processFmt_names_out_of_range (renderD (nodeDepthL cs)) (.mk ns vs cs f)
        (fun c al2 hc => hsubOf cs c al2 hc) f.data 0 0 0 "" al (Nat.zero_le _)
        (by simpa using hcnt)
  · intro node al hA hcnt
    rw [ExpressionNode.build_expression_string, renderDB_eq_renderD (nodeDepth node) node al hA]
    cases node with
    | mk ns vs cs f =>
      exact processFmt_values_out_of_range (renderD (nodeDepthL cs)) (.mk ns vs cs f)
        (fun c al2 hc => hsubOf cs c al2 hc) f.data 0 0 0 "" al (Nat.zero_le _)
        (by simpa using hcnt)
  · intro node al hA hcnt
    rw [ExpressionNode.build_expression_string, renderDB_eq_renderD (nodeDepth node) node al hA]
    cases node with
    | mk ns vs cs f =>
      exact processFmt_children_out_of_range (renderD (nodeDepthL cs)) (.mk ns vs cs f)
        (fun c al2 hc => hsubOf cs c al2 hc) f.data 0 0 0 "" al (Nat.zero_le _)
        (by simpa using hcnt)

theorem C8_witness :
    (("n$".data.getLast? = some '$') ∧ badFmt "n$".data = true) ∧
    (asciiFmt (ExpressionNode.from_names ["foo"] "$n.$x") = true ∧
      badFmt "$n.$x".data = true ∧
      ((ExpressionNode.from_names ["foo"] "$n.$x").build_expression_string
        AliasList.empty).isErr) ∧
    (asciiFmt (ExpressionNode.from_values [] "$v") = true ∧
      ([] : List AttributeValue).length < cntEsc 'v' "$v".data ∧
      ((ExpressionNode.from_values [] "$v").build_expression_string AliasList.empty).isErr) := by
  refine ⟨⟨by decide, C8_renderer_error_taxonomy.1 "n$".data (by decide)⟩,
    ⟨by decide, by decide, ?_⟩, ⟨by decide, by decide, ?_⟩⟩
  · exact C8_renderer_error_taxonomy.2.2.1 (ExpressionNode.from_names ["foo"] "$n.$x")
      AliasList.empty (by decide) (by decide)
  · exact C8_renderer_error_taxonomy.2.2.2.2.1 (ExpressionNode.from_values [] "$v")
      AliasList.empty (by decide) (by decide)
